import Mathlib

/-!
Shallow embedding of the f90nml Fortran-namelist library (tokenizer, value
coercions, index iterator, namelist container, parser, serializer), translated
from the Python sources `f90nml/tokenizer.py`, `f90nml/fpy.py`,
`f90nml/findex.py`, `f90nml/namelist.py` and `f90nml/parser.py`.

Modelling conventions, used throughout:
* Python strings are Lean `String`s; the character predicates (`isalpha`,
  `isdigit`, ...) are modelled on their ASCII fragment, which covers every
  input appearing in the development.
* Python exceptions are explicit result values (`PErr`); an exception does not
  roll back earlier mutations, so fallible operations return the updated state
  alongside the error.
* Python `while` loops and recursion through the heap are written as
  fuel-indexed structural recursion; exhausted fuel is the distinguished error
  `PErr.outOfFuel`, which no theorem below ever accepts as a result.
* CPython binary floats are modelled exactly: a finite float literal denotes
  the exact rational value of its decimal text (the claims under study exclude
  floating-point-format ambiguity), with `inf`/`nan` as separate constructors.
-/

namespace F90

/-- ASCII fragment of `str.lower`. -/
def pyLower (s : String) : String :=
  String.mk (s.data.map Char.toLower)

/-- ASCII fragment of `str.isalpha` (one character). -/
def pyIsAlpha (c : Char) : Bool := c.isAlpha

/-- ASCII fragment of `str.isdigit` (one character). -/
def pyIsDigit (c : Char) : Bool := c.isDigit

/-- ASCII fragment of `str.isalnum` (one character). -/
def pyIsAlnum (c : Char) : Bool := c.isAlpha || c.isDigit

/-- `string.whitespace` from the Python standard library. -/
def pyWhitespace : List Char := [' ', '\t', '\n', '\x0d', '\x0b', '\x0c']

/-- One-character `str.isspace` test, matching membership in
`string.whitespace` for the ASCII fragment. -/
def pyIsSpaceChar (c : Char) : Bool := pyWhitespace.contains c

/-- `str.isspace`: nonempty and all characters are whitespace. -/
def pyIsSpace (s : String) : Bool :=
  !s.data.isEmpty && s.data.all pyIsSpaceChar

/-- First character of a token, as Python `tok[0]`.  Every token produced by
the tokenizer is nonempty; Python would raise `IndexError` on `""`, so the
default is unreachable. -/
def tokHead (s : String) : Char := s.data.headD 'A'

/-- Membership of a character in a Python string, as `c in s`. -/
def pyCharIn (c : Char) (s : String) : Bool := s.data.contains c

/-- Exact value of a digit run read as a natural number. -/
def digitsToNat (l : List Char) : Nat :=
  l.foldl (fun acc c => 10 * acc + (c.toNat - '0'.toNat)) 0

/-- CPython `int(s)` on the fragment used by the library: an optional sign
followed by a nonempty digit run (no underscores, no surrounding blanks —
tokens handed to `int` never contain them). `none` models `ValueError`. -/
def pyint (s : String) : Option Int :=
  match s.data with
  | [] => none
  | c :: rest =>
    if c = '-' then
      if rest ≠ [] ∧ rest.all pyIsDigit then some (-(digitsToNat rest : Int)) else none
    else if c = '+' then
      if rest ≠ [] ∧ rest.all pyIsDigit then some (digitsToNat rest : Int) else none
    else if (c :: rest).all pyIsDigit then some (digitsToNat (c :: rest) : Int)
    else none

/-- A CPython float, with the finite case kept exact as a rational. -/
inductive PyFloat where
  | finite (q : ℚ)
  | inf (neg : Bool)
  | nan
deriving DecidableEq, Repr

/-- `re.sub('(?<=[^eEdD])(?=[+-])', 'e', s)` from `fpy.pyfloat`, specialised
to its use site: insert `e` before any sign character that has a preceding
character other than `e`/`E`/`d`/`D`. -/
def insertExpMarker (l : List Char) : List Char :=
  match l with
  | [] => []
  | [c] => [c]
  | c :: d :: rest =>
    if (d = '+' ∨ d = '-') ∧ ¬(c = 'e' ∨ c = 'E' ∨ c = 'd' ∨ c = 'D') then
      c :: 'e' :: insertExpMarker (d :: rest)
    else
      c :: insertExpMarker (d :: rest)

/-- Split a character list at the first occurrence of `sep`; `none` when
absent. -/
def splitAtChar (sep : Char) : List Char → Option (List Char × List Char)
  | [] => none
  | c :: rest =>
    if c = sep then some ([], rest)
    else match splitAtChar sep rest with
      | some (l, r) => some (c :: l, r)
      | none => none

/-- Core of CPython `float(s)` on the decimal fragment: digits, an optional
point, an optional exponent.  The result is the exact rational value of the
text. -/
def parseDecimal (l : List Char) : Option ℚ :=
  -- split off an exponent part at 'e' (input is already lower-cased)
  let (mant, expPart) :=
    match splitAtChar 'e' l with
    | some (m, e) => (m, some e)
    | none => (l, none)
  let expVal : Option Int :=
    match expPart with
    | none => some 0
    | some e =>
      match e with
      | [] => none
      | c :: rest =>
        if c = '-' then
          if rest ≠ [] ∧ rest.all pyIsDigit then some (-(digitsToNat rest : Int)) else none
        else if c = '+' then
          if rest ≠ [] ∧ rest.all pyIsDigit then some (digitsToNat rest : Int) else none
        else if (c :: rest).all pyIsDigit then some (digitsToNat (c :: rest) : Int)
        else none
  match expVal with
  | none => none
  | some ex =>
    let (intPart, fracPart) :=
      match splitAtChar '.' mant with
      | some (i, f) => (i, f)
      | none => (mant, [])
    if intPart.all pyIsDigit ∧ fracPart.all pyIsDigit ∧
        (intPart ≠ [] ∨ fracPart ≠ []) then
      let base : ℚ := (digitsToNat intPart : ℚ) +
        (digitsToNat fracPart : ℚ) / ((10 : ℚ) ^ fracPart.length)
      some (base * (10 : ℚ) ^ ex)
    else none

/-- CPython `float(s)` on the fragment reachable from the library: optional
surrounding blanks, an optional sign, then either a decimal literal or one of
`inf`/`infinity`/`nan` (the input is lower-cased by the caller). -/
def pyfloatCore (s : List Char) : Option PyFloat :=
  let s := s.dropWhile pyIsSpaceChar
  let s := (s.reverse.dropWhile pyIsSpaceChar).reverse
  let (neg, body) :=
    match s with
    | '-' :: rest => (true, rest)
    | '+' :: rest => (false, rest)
    | _ => (false, s)
  if body = "inf".data ∨ body = "infinity".data then some (.inf neg)
  else if body = "nan".data then some .nan
  else match parseDecimal body with
    | some q => some (.finite (if neg then -q else q))
    | none => none

/-- `fpy.pyfloat`: lower-case, rewrite `d` exponents to `e`, insert a missing
`e` before a sign, then convert via `float`. -/
def pyfloat (s : String) : Option PyFloat :=
  let t := (pyLower s).data.map (fun c => if c = 'd' then 'e' else c)
  pyfloatCore (insertExpMarker t)

/-- `fpy.pycomplex`: accept `(re, im)` with exactly one comma and convert both
parts via `pyfloat`. -/
def pycomplex (s : String) : Option (PyFloat × PyFloat) :=
  match s.data with
  | [] => none
  | c :: rest =>
    if c = '(' ∧ rest ≠ [] ∧ rest.getLast! = ')' then
      let inner := rest.dropLast
      match splitAtChar ',' inner with
      | some (re, im) =>
        if im.contains ',' then none
        else match pyfloatCore (insertExpMarker ((String.mk re).data.map Char.toLower)),
                   pyfloatCore (insertExpMarker ((String.mk im).data.map Char.toLower)) with
          -- pyfloat is applied to each part; parts never contain 'd' markers
          -- in the strings the parser assembles, and `pyfloat` lower-cases.
          | some a, some b => some (a, b)
          | _, _ => none
      | none => none
    else none

/-- `fpy.pybool`: strict and lenient parsing of Fortran logical literals.
`none` models `ValueError`. -/
def pybool (s : String) (strictLogical : Bool := true) : Option Bool :=
  let vBool : Option String :=
    if strictLogical then some (pyLower s)
    else
      match s.data with
      | [] => none
      | '.' :: rest =>
        match rest with
        | [] => none
        | c :: _ => some (String.mk [c.toLower])
      | c :: _ => some (String.mk [c.toLower])
  match vBool with
  | none => none
  | some v =>
    if v = ".true." ∨ v = ".t." ∨ v = "true" ∨ v = "t" then some true
    else if v = ".false." ∨ v = ".f." ∨ v = "false" ∨ v = "f" then some false
    else none

/-- `fpy.pystr`: strip matching quote delimiters and un-double embedded
delimiters; non-delimited strings pass through. -/
def pystr (s : String) : String :=
  match s.data with
  | [] => s   -- Python raises IndexError on ""; the parser never passes it
  | c :: _ =>
    if (c = '\'' ∨ c = '"') ∧ s.data.getLast! = c then
      let out := String.mk (s.data.drop 1).dropLast
      (out.replace (String.mk [c, c]) (String.mk [c]))
    else s

/-! ## Data model: values and the `Namelist` container

A `Namelist` is an insertion-ordered association list from lower-cased names
to values, together with the `start_index` metadata dict and the `_cogroups`
bookkeeping (`namelist.py`).  Values mirror the Python types the parser
produces: `int`, `float`, `complex`, `bool`, `str`, `None`, `list`, and nested
`Namelist`s (derived types).  The formatting attributes of a `Namelist`
(column width, indent, ...) are carried separately in `NmlOpts`, since Python
equality between namelists never inspects them. -/

/-- A Python value held in a namelist.  The `vnml` constructor carries the
entries, the `start_index` dict and the `_cogroups` dict of a nested
`Namelist`. -/
inductive Value where
  | vint (n : Int)
  | vreal (f : PyFloat)
  | vcomplex (re im : PyFloat)
  | vbool (b : Bool)
  | vstr (s : String)
  | vnull
  | vlist (l : List Value)
  | vnml (entries : List (String × Value))
         (startIndex : List (String × List (Option Int)))
         (cogroups : List (String × List String))

/-- A `Namelist` object: its dict entries, `start_index`, and `_cogroups`. -/
structure NML where
  entries : List (String × Value)
  startIndex : List (String × List (Option Int)) := []
  cogroups : List (String × List String) := []

def Value.ofNML (n : NML) : Value := .vnml n.entries n.startIndex n.cogroups

def Value.toNML? : Value → Option NML
  | .vnml e si cg => some ⟨e, si, cg⟩
  | _ => none

/-- Python truthiness of a value (`if parent:`, `if vpar:`, ...). -/
def Value.pyTruthy : Value → Bool
  | .vint n => n != 0
  | .vreal f => f != .finite 0
  | .vcomplex re im => (re != .finite 0) || (im != .finite 0)
  | .vbool b => b
  | .vstr s => s != ""
  | .vnull => false
  | .vlist l => !l.isEmpty
  | .vnml e _ _ => !e.isEmpty

def NML.pyTruthy (n : NML) : Bool := !n.entries.isEmpty

/-- Ordered-dict lookup on an association list. -/
def alistGet {α : Type} (l : List (String × α)) (k : String) : Option α :=
  match l with
  | [] => none
  | (k₀, v₀) :: rest => if k₀ = k then some v₀ else alistGet rest k

/-- Ordered-dict assignment: update an existing key in place (keeping its
position) or append a new key at the end, exactly as `OrderedDict.__setitem__`
behaves. -/
def alistSet {α : Type} (l : List (String × α)) (k : String) (v : α) :
    List (String × α) :=
  match l with
  | [] => [(k, v)]
  | (k₀, v₀) :: rest =>
    if k₀ = k then (k₀, v) :: rest else (k₀, v₀) :: alistSet rest k v

/-- Ordered-dict deletion of one key (keys are unique in an ordered dict). -/
def alistDel {α : Type} (l : List (String × α)) (k : String) :
    List (String × α) :=
  match l with
  | [] => []
  | (k₀, v₀) :: rest =>
    if k₀ = k then rest else (k₀, v₀) :: alistDel rest k

/-- `_cogroup_basename`: strip a `_grp_` prefix and the trailing `_<id>`. -/
def cogroupBasename (g : String) : String :=
  if g.take 5 = "_grp_" then
    let rest := (g.drop 5).data
    -- rsplit('_', 1)[0]: the text before the last underscore, if any
    match splitAtChar '_' rest.reverse with
    | some (_, beforeRev) => String.mk beforeRev.reverse
    | none => String.mk rest
  else g

/-- `Namelist.__contains__` (string keys): case-insensitive membership in the
dict or in the cogroup table. -/
def NML.contains (n : NML) (k : String) : Bool :=
  let lk := pyLower k
  (alistGet n.entries lk).isSome || (alistGet n.cogroups lk).isSome

/-- The groups of a cogroup view, in namelist order (`Cogroup.__init__` with
`Cogroup.keys`). -/
def NML.cogroupMembers (n : NML) (lk : String) : List Value :=
  (n.entries.filter (fun e => cogroupBasename e.1 = lk)).map (·.2)

/-- `Namelist.__getitem__` (string keys): a cogroup key returns the list view
of its member groups; otherwise the entry under the lower-cased key; `none`
models `KeyError`. -/
def NML.get (n : NML) (k : String) : Option (Value ⊕ List Value) :=
  let lk := pyLower k
  if (alistGet n.cogroups lk).isSome then some (.inr (n.cogroupMembers lk))
  else match alistGet n.entries lk with
    | some v => some (.inl v)
    | none => none

/-- `Namelist.get(key, default=None)` as the parser uses it, with the cogroup
view flattened to a plain list value (a `Cogroup` is a `list` subclass). -/
def NML.getVal (n : NML) (k : String) : Value :=
  match n.get k with
  | some (.inl v) => v
  | some (.inr l) => .vlist l
  | none => .vnull

/-- `Namelist.__setitem__` (string keys, values already converted): store
under the lower-cased key.  The dict-promotion of raw Python dicts and the
`tolist` conversion are identities in this model, where every value is
already a `Value`. -/
def NML.set (n : NML) (k : String) (v : Value) : NML :=
  { n with entries := alistSet n.entries (pyLower k) v }

/-- `Namelist.__delitem__` (string keys): deleting a cogroup key removes all
member groups and the cogroup record; otherwise delete the lower-cased key.
`none` models `KeyError`. -/
def NML.del (n : NML) (k : String) : Option NML :=
  let lk := pyLower k
  match alistGet n.cogroups lk with
  | some gkeys =>
    some { n with
      entries := gkeys.foldl (fun e gk => alistDel e gk) n.entries,
      cogroups := alistDel n.cogroups lk }
  | none =>
    if (alistGet n.entries lk).isSome then
      some { n with entries := alistDel n.entries lk }
    else none

/-- `dict.pop(key, default)` on the entries, used by the parser via
`nml_patch.pop(g_name.lower(), Namelist())` and `patch_nml.pop(lk)`. -/
def NML.popEntry (n : NML) (lk : String) : Option Value × NML :=
  match alistGet n.entries lk with
  | some v => (some v, { n with entries := alistDel n.entries lk })
  | none => (none, n)

/-- `Namelist.create_cogroup`: move an existing plain group under an internal
`_grp_<name>_0` key (preserving its position is *not* attempted by the code:
the moved entry goes to the end and the later keys are re-appended, which
keeps relative order), then record the cogroup. -/
def NML.createCogroup (n : NML) (groupName : String) : NML :=
  let grpKey := pyLower groupName
  if (alistGet n.cogroups grpKey).isSome then n
  else if (alistGet n.entries grpKey).isSome then
    -- remove the entry and re-append under the internal key; the keys that
    -- followed it are removed and re-appended, preserving their order
    match alistGet n.entries grpKey with
    | some grpVal =>
      let cogrpKey := "_grp_" ++ grpKey ++ "_0"
      let before := n.entries.takeWhile (fun e => e.1 ≠ grpKey)
      let after := (n.entries.dropWhile (fun e => e.1 ≠ grpKey)).drop 1
      { n with entries := before ++ [(cogrpKey, grpVal)] ++ after,
               cogroups := alistSet n.cogroups grpKey [cogrpKey] }
    | none => n
  else { n with cogroups := alistSet n.cogroups grpKey [] }

/-- `Namelist.add_cogroup`: append a duplicate group under a fresh internal
key `_grp_<name>_<id>` with `id` one above the largest existing id. -/
def NML.addCogroup (n : NML) (key : String) (val : Value) : NML :=
  let lkey := pyLower key
  let n := if (alistGet n.cogroups lkey).isSome then n else n.createCogroup lkey
  let hdr := "_grp_" ++ lkey ++ "_"
  let ids := (alistGet n.cogroups lkey).getD [] |>.filterMap
    (fun k => pyint (k.drop hdr.length))
  let cogrpId : Int := match ids.max? with
    | some m => 1 + m
    | none => 0
  let cogrpKey := "_grp_" ++ lkey ++ "_" ++ toString cogrpId
  let n' := n.set cogrpKey val
  { n' with cogroups :=
      alistSet n'.cogroups lkey ((alistGet n'.cogroups lkey).getD [] ++ [cogrpKey]) }

/-! ## Tokenizer (`tokenizer.py`)

The per-character machine.  `characters` is the not-yet-consumed remainder of
the current line's iterator, `char` the current character (with `'\n'`
spoofed once the iterator is exhausted, as `update_chars` does), `idx` the
position of `char` in the line.  `prior_delim` and `group_token` persist
between lines.  The `prior_char` attribute is write-only in the source and is
modelled for completeness. -/

/-- `Tokenizer.punctuation` (the unhandled Table 3.1 tokens). -/
def tokPunctuation : String := "=+-*/\\()[]{},:;%&~<>?`|$#@"

/-- The `group_token` attribute: `None` before any group, the opening
character inside a group, `False` after a group has closed. -/
inductive GroupTok where
  | unset
  | opened (c : Char)
  | closed

/-- Python truthiness of `group_token`. -/
def GroupTok.pyTruthy : GroupTok → Bool
  | .opened _ => true
  | _ => false

/-- Tokenizer state during one `parse` call. -/
structure TokState where
  characters : List Char
  priorChar : Char
  char : Char
  idx : Nat
  priorDelim : Option Char
  groupToken : GroupTok

/-- `Tokenizer.update_chars`: advance one character, spoofing `'\n'` at the
end of the iterator. -/
def TokState.updateChars (st : TokState) : TokState :=
  { st with
    priorChar := st.char,
    char := st.characters.headD '\n',
    characters := st.characters.tail,
    idx := st.idx + 1 }

/-- `Tokenizer.parse_name`: take the maximal run of name characters starting
at `idx` by slicing the line, then realign the character iterator.  The
`none` result models the `ValueError` that `islice` raises when the slice is
empty (reachable only after the IEEE-token desynchronisation). -/
def parseName (line : List Char) (st : TokState) : Option (String × TokState) :=
  let run := (line.drop st.idx).takeWhile
    (fun c => pyIsAlnum c || pyCharIn c "\'\"_")
  let word := String.mk run
  if word.isEmpty then none   -- islice(characters, -1, None) raises ValueError
  else
    let st := { st with
      idx := st.idx + run.length - 1,
      characters := st.characters.drop (word.length - 1) }
    some (word, st.updateChars)

/-- `Tokenizer.parse_string`: consume a quoted string, handling doubled
delimiters and continuation across the end of the line (`prior_delim`). -/
def parseQuoted (fuel : Nat) (st : TokState) : String × TokState :=
  let (delim, word₀, st) :=
    match st.priorDelim with
    | some d => (d, "", { st with priorDelim := none })
    | none =>
      let d := st.char
      (d, String.mk [st.char], st.updateChars)
  go fuel delim word₀ st
where
  /-- The `while True` body of `parse_string`. -/
  go : Nat → Char → String → TokState → String × TokState
  | 0, _, word, st => (word, st)
  | fuel + 1, delim, word, st =>
    if st.char = delim then
      let st := st.updateChars
      if st.char = delim then
        go fuel delim (word ++ String.mk [delim, delim]) st.updateChars
      else
        (word ++ String.mk [delim], st)
    else if st.char = '\n' then
      (word, { st with priorDelim := some delim })
    else
      go fuel delim (word ++ String.mk [st.char]) st.updateChars

/-- `Tokenizer.parse_numeric`: greedy digits with one decimal point, an
optional exponent marker `e/E/d/D`, an optional sign and further digits. -/
def parseNumeric (fuel : Nat) (st : TokState) : String × TokState :=
  let (word, st) :=
    if st.char = '-' then (String.mk [st.char], st.updateChars) else ("", st)
  let (word, st, _) := digitsDot fuel word st false
  let (word, st) :=
    if pyCharIn st.char "eEdD" then (word ++ String.mk [st.char], st.updateChars)
    else (word, st)
  let (word, st) :=
    if pyCharIn st.char "+-" then (word ++ String.mk [st.char], st.updateChars)
    else (word, st)
  digitRun fuel word st
where
  /-- `while self.char.isdigit() or (self.char == '.' and not frac)`. -/
  digitsDot : Nat → String → TokState → Bool → String × TokState × Bool
  | 0, word, st, frac => (word, st, frac)
  | fuel + 1, word, st, frac =>
    if pyIsDigit st.char then
      digitsDot fuel (word ++ String.mk [st.char]) st.updateChars frac
    else if st.char = '.' ∧ ¬frac then
      digitsDot fuel (word ++ String.mk [st.char]) st.updateChars true
    else (word, st, frac)
  /-- the final `while self.char.isdigit()`. -/
  digitRun : Nat → String → TokState → String × TokState
  | 0, word, st => (word, st)
  | fuel + 1, word, st =>
    if pyIsDigit st.char then
      digitRun fuel (word ++ String.mk [st.char]) st.updateChars
    else (word, st)

/-- One whitespace run (`while self.char in self.whitespace`); the
tokenizer's whitespace class excludes `'\n'`. -/
def wsRun (fuel : Nat) (word : String) (st : TokState) : String × TokState :=
  match fuel with
  | 0 => (word, st)
  | fuel + 1 =>
    if pyIsSpaceChar st.char ∧ st.char ≠ '\n' then
      wsRun fuel (word ++ String.mk [st.char]) st.updateChars
    else (word, st)

/-- The `.` branch of `Tokenizer.parse`: either a fraction-first numeric
literal or a `.name.`-style logical token. -/
def dotToken (fuel : Nat) (st : TokState) : String × TokState :=
  let st := st.updateChars
  if pyIsDigit st.char then
    let (frac, st) := parseNumeric fuel st
    ("." ++ frac, st)
  else
    let (word, st) := alphaRun fuel "." st
    if st.char = '.' then (word ++ ".", st.updateChars) else (word, st)
where
  alphaRun : Nat → String → TokState → String × TokState
  | 0, word, st => (word, st)
  | fuel + 1, word, st =>
    if pyIsAlpha st.char then
      alphaRun fuel (word ++ String.mk [st.char]) st.updateChars
    else (word, st)

/-- One iteration of the `while self.char != '\n'` loop in `Tokenizer.parse`:
the produced token (or a `ValueError`) and the successor state.  The comment
test is the hardcoded `self.char in ('!', '#')` of the source — the
`comment_tokens` attribute the parser assigns is never read by the
tokenizer. -/
def tokStep (line : List Char) (fuel : Nat)
    (st : TokState) : Option (String × TokState) :=
  -- update namelist group status
  let st :=
    if st.char = '&' ∨ st.char = '$' then
      { st with groupToken := .opened st.char }
    else st
  let st :=
    match st.groupToken with
    | .opened g =>
      if (g = '&' ∧ st.char = '/') ∨ (g = '$' ∧ st.char = '$') then
        { st with groupToken := .closed }
      else st
    | _ => st
  if pyIsSpaceChar st.char ∧ st.char ≠ '\n' then
    some (wsRun fuel "" st)
  else if (st.char = '!' || st.char = '#') ||
      (match st.groupToken with | .unset => true | _ => false) then
    -- abort the iteration and build the comment token
    let word := String.mk (line.drop st.idx).dropLast
    some (word, { st with char := '\n' })
  else if pyCharIn st.char "\"\'" ∨ st.priorDelim.isSome then
    some (parseQuoted fuel st)
  else if pyIsAlpha st.char then
    parseName line st
  else if st.char = '+' ∨ st.char = '-' then
    -- lookahead to check for an IEEE value
    let ieeeVal := st.characters.takeWhile pyIsAlpha
    if pyLower (String.mk ieeeVal) = "inf" ∨
        pyLower (String.mk ieeeVal) = "infinity" ∨
        pyLower (String.mk ieeeVal) = "nan" then
      let word := String.mk (st.char :: ieeeVal)
      -- `takewhile` has already consumed the character after the run, and
      -- `next(lookahead, '\n')` consumes one more; `idx` is not advanced.
      let rest := st.characters.drop (ieeeVal.length + 1)
      some (word, { st with
        priorChar := ieeeVal.getLastD ' ',
        char := rest.headD '\n',
        characters := rest.tail })
    else
      some (parseNumeric fuel st)
  else if pyIsDigit st.char then
    some (parseNumeric fuel st)
  else if st.char = '.' then
    some (dotToken fuel st)
  else if pyCharIn st.char tokPunctuation then
    some (String.mk [st.char], st.updateChars)
  else
    none  -- "This should never happen": ValueError

/-- The tokenizer's main loop over one line. -/
def tokLoop (line : List Char) :
    Nat → TokState → List String → Option (List String × TokState)
  | 0, _, _ => none   -- fuel exhaustion (never reached on genuine lines)
  | fuel + 1, st, acc =>
    if st.char = '\n' then some (acc.reverse, st)
    else match tokStep line fuel st with
      | some (word, st') => tokLoop line fuel st' (word :: acc)
      | none => none

/-- `Tokenizer.parse`: tokenize one line, starting from the persistent
inter-line state (`prior_delim`, `group_token`). -/
def tokenizerParse (priorDelim : Option Char)
    (groupToken : GroupTok) (line : String) :
    Option (List String × TokState) :=
  let st : TokState := {
    characters := line.data.tail,
    priorChar := '\n',   -- models Python None; never read before assignment
    char := line.data.headD '\n',
    idx := 0,
    priorDelim := priorDelim,
    groupToken := groupToken }
  tokLoop line.data (line.length + 2) st []

/-! ## Index iterator (`findex.py`) -/

/-- `FIndex` state: per-dimension start, exclusive end (`None` = unbounded),
step, the mutable cursor, and the per-dimension first index record. -/
structure FIndex where
  start : List Int
  endIdx : List (Option Int)
  step : List Int
  current : List Int
  first : List (Option Int)

/-- Python truthiness of an `Option Int` (`None` and `0` are falsy). -/
def pyTruthyOptInt : Option Int → Bool
  | none => false
  | some n => n != 0

/-- `FIndex.__init__` from a list of `(start, end, stride)` triplets and the
optional global start index. -/
def FIndex.init (bounds : List (Option Int × Option Int × Option Int))
    (firstArg : Option Int) : FIndex :=
  let start := bounds.map (fun b => b.1.getD 1)
  { start := start,
    endIdx := bounds.map (fun b => b.2.1),
    step := bounds.map (fun b => b.2.2.getD 1),
    current := start,
    first :=
      match firstArg with
      | some g => start.map (fun s => some (min g s))
      | none => bounds.map (fun b => b.1) }

/-- The cursor-advance loop of `FIndex.__next__`: the final rank always
advances; an inner rank advances while below `end - 1` (or unbounded) and
otherwise resets to its start. -/
def findexAdvance : List Int → List (Option Int) → List Int → List Int →
    List Int
  | idx :: curRest, e :: eRest, s :: sRest, p :: pRest =>
    if curRest.isEmpty then [idx + p]
    else if (match e with | none => true | some ev => idx < ev - 1) then
      (idx + p) :: curRest
    else
      s :: findexAdvance curRest eRest sRest pRest
  | cur, _, _, _ => cur

/-- `FIndex.__next__`: `none` models `StopIteration`.  The termination test is
the truthiness test `if self.end[-1] and self.current[-1] >= self.end[-1]` of
the source, under which an end bound of `0` (like `None`) never stops the
iteration.  Empty bounds would raise `IndexError` in Python and are
unreachable from the parser. -/
def FIndex.next (f : FIndex) : Option (List Int × FIndex) :=
  let lastEnd := f.endIdx.getLastD none
  if pyTruthyOptInt lastEnd ∧ f.current.getLastD 0 ≥ lastEnd.getD 0 then
    none
  else
    some (f.current,
      { f with current := findexAdvance f.current f.endIdx f.start f.step })

/-! ## Merge and placement support (`parser.py` module functions) -/

mutual

/-- `merge_dicts`/`merge_lists`/`merge_values`, fuel-indexed.  The recursion
of the source walks the new/patch side, so any fuel at least the constructor
depth of the new side computes the true result; the fuel-0 fallbacks return
the new side unchanged and are unreachable in every use below. -/
def mergeValuesF : Nat → Value → Value → Value
  | 0, _, new => new
  | fuel + 1, src, new =>
    match src, new with
    | .vnml e₁ s₁ c₁, .vnml e₂ s₂ c₂ =>
      Value.ofNML (mergeDictsF fuel ⟨e₁, s₁, c₁⟩ ⟨e₂, s₂, c₂⟩)
    | _, _ =>
      let srcL := match src with | .vlist l => l | _ => [src]
      let newL := match new with | .vlist l => l | _ => [new]
      .vlist (mergeListsF fuel srcL newL)

/-- `merge_lists`: extend the shorter side with nulls, then merge
position-wise (recursing on dict/dict and list/list pairs, otherwise the
non-null new value wins). -/
def mergeListsF : Nat → List Value → List Value → List Value
  | 0, _, new => new
  | fuel + 1, src, new =>
    let lMax := max src.length new.length
    let src := src ++ List.replicate (lMax - src.length) .vnull
    let new := new ++ List.replicate (lMax - new.length) .vnull
    (new.zip src).map fun (val, sval) =>
      match val, sval with
      | .vnml e₂ s₂ c₂, .vnml e₁ s₁ c₁ =>
        Value.ofNML (mergeDictsF fuel ⟨e₁, s₁, c₁⟩ ⟨e₂, s₂, c₂⟩)
      | .vlist l₂, .vlist l₁ => .vlist (mergeListsF fuel l₁ l₂)
      | .vnull, _ => sval
      | _, _ => val

/-- `merge_dicts`: fold the patch entries into `src`, recursing on dict/dict
conflicts and applying `merge_values` otherwise; `src` keeps its
`start_index` and cogroup attributes. -/
def mergeDictsF : Nat → NML → NML → NML
  | 0, src, _ => src
  | fuel + 1, src, patch =>
    patch.entries.foldl
      (fun acc (key, pval) =>
        if acc.contains key then
          match acc.getVal key, pval with
          | .vnml e₁ s₁ c₁, .vnml e₂ s₂ c₂ =>
            acc.set key (Value.ofNML (mergeDictsF fuel ⟨e₁, s₁, c₁⟩ ⟨e₂, s₂, c₂⟩))
          | sval, _ => acc.set key (mergeValuesF fuel sval pval)
        else acc.set key pval)
      src

end

/-- `prepad_array`: resize a vector for a lowered start index, recursing into
interior list elements with the outermost axis removed. -/
def prepadArrayF : Nat → List Value → List (Option Int) → List (Option Int) →
    List Value
  | 0, var, _, _ => var
  | fuel + 1, var, vStartIdx, newStartIdx =>
    let iP := vStartIdx.getLastD none
    let iV := newStartIdx.getLastD none
    let pad : List Value :=
      match iP, iV with
      | some p, some v =>
        if v < p then List.replicate (p - v).toNat .vnull else []
      | _, _ => []
    let priorVar := var.map fun v =>
      match v with
      | .vlist l =>
        Value.vlist (prepadArrayF fuel l vStartIdx.dropLast newStartIdx.dropLast)
      | _ => v
    pad ++ priorVar

/-- `pad_array`: grow a (possibly nested) list so that position
`i_v - i_s` exists on every axis, filling with empty sublists on outer axes
and nulls on the innermost axis. -/
def padArrayF : Nat → List Value → List (Int × Int) → List Value
  | 0, v, _ => v
  | fuel + 1, v, idx =>
    match idx with
    | [] => v   -- Python would raise IndexError; unreachable
    | (iV, iS) :: rest =>
      if rest.isEmpty then
        v ++ List.replicate (iV - iS + 1 - v.length).toNat .vnull
      else
        let v := v ++ List.replicate (iV - iS + 1 - v.length).toNat (.vlist [])
        v.map fun e =>
          match e with
          | .vlist l => Value.vlist (padArrayF fuel l rest)
          | _ => e   -- Python would raise AttributeError; unreachable

/-- `delist`: collapse an empty list to null and a singleton to its
element. -/
def delist (values : List Value) : Value :=
  match values with
  | [] => .vnull
  | [v] => v
  | l => .vlist l

/-- `check_for_value`: does the lookahead stream hold at least one candidate
value token before the next `=` or group terminator? -/
def checkForValue (tokens : List String) : Bool :=
  go tokens 0
where
  go : List String → Nat → Bool
  | [], ntoks => ntoks > 0
  | tok :: rest, ntoks =>
    if pyIsSpace tok || tok = "," then go rest ntoks
    else if tok = "=" ∨ tok = "/" ∨ tok = "$" ∨ tok = "&" then ntoks > 0
    else if ntoks + 1 > 1 then true
    else go rest (ntoks + 1)

/-! ## Serializer (`namelist.py`: the formatting attributes, `_f90repr` and
`_var_strings` / `_write_nmlgrp` / `_writestream`) -/

/-- The formatting attributes of a `Namelist`, with their constructor
defaults.  Python equality between namelists never compares these, so they
are carried beside the data rather than inside `NML`. -/
structure NmlOpts where
  columnWidth : Nat := 72
  indent : String := "    "
  endComma : Bool := false
  uppercase : Bool := false
  floatFormat : String := ""
  falseRepr : String := ".false."
  trueRepr : String := ".true."
  indexSpacing : Bool := false
  repeatCounter : Bool := false
  splitStrings : Bool := false
  defaultStartIndex : Option Int := none

/-- ASCII fragment of `str.upper`. -/
def pyUpper (s : String) : String := String.mk (s.data.map Char.toUpper)

/-- `str.rstrip()` (trailing whitespace removal). -/
def pyRstrip (s : String) : String :=
  String.mk (s.data.reverse.dropWhile pyIsSpaceChar).reverse

/-- `Namelist._f90float` under the default (empty) format specification,
modelled exactly on the doubles that are integral (`format(2.0, '') = "2.0"`);
the shortest-repr algorithm for non-integral doubles is outside the exact
fragment and no claim below depends on it. -/
def f90float (f : PyFloat) : String :=
  match f with
  | .finite q => toString q.num ++ (if q.den = 1 then ".0" else "?")
  | .inf neg => (if neg then "-inf" else "inf")
  | .nan => "nan"

/-- `Namelist._f90str`: `repr(str)` with Fortran quote doubling.  CPython
`repr` delimits with a single quote unless the string contains one and no
double quote; the two `replace` calls then turn escaped delimiters into
doubled ones.  Modelled on strings without backslashes or control
characters. -/
def f90str (s : String) : String :=
  let sq : Char := '\''
  let dq : Char := '"'
  let delim := if s.data.contains sq ∧ ¬s.data.contains dq then dq else sq
  let body := s.data.flatMap (fun c => if c = delim then [c, c] else [c])
  String.mk (delim :: body ++ [delim])

/-- `Namelist._f90repr` on plain values: booleans before integers (as
`isinstance` finds `bool` first), then integers, reals, complexes, strings,
and `None` as the empty field. -/
def f90repr (opts : NmlOpts) (v : Value) : String :=
  match v with
  | .vbool b => if b then opts.trueRepr else opts.falseRepr
  | .vint n => toString n
  | .vreal f => f90float f
  | .vcomplex re im => "(" ++ f90float re ++ ", " ++ f90float im ++ ")"
  | .vstr s => f90str s
  | .vnull => ""
  | .vlist _ => "!ValueError"   -- `_f90repr` raises ValueError on lists
  | .vnml _ _ _ => "!ValueError"  -- ... and on dicts; unreachable below

/-- `is_nullable_list(val, list)`: a list with at least one list element and
nothing but lists and `None`. -/
def isNullableListOfLists (v : Value) : Bool :=
  match v with
  | .vlist l =>
    (l.any fun e => match e with | .vlist _ => true | _ => false) &&
    (l.all fun e => match e with | .vlist _ => true | .vnull => true | _ => false)
  | _ => false

/-- `is_nullable_list(val, Namelist)`. -/
def isNullableListOfNml (v : Value) : Bool :=
  match v with
  | .vlist l =>
    (l.any fun e => match e with | .vnml _ _ _ => true | _ => false) &&
    (l.all fun e => match e with | .vnml _ _ _ => true | .vnull => true | _ => false)
  | _ => false

/-- Python slicing `s[:i]` for a possibly negative `i`. -/
def pySliceTo (s : String) (i : Int) : String :=
  if i ≥ 0 then String.mk (s.data.take i.toNat)
  else String.mk (s.data.take (s.length - min s.length (-i).toNat))

/-- Python slicing `s[i:]` for a possibly negative `i`. -/
def pySliceFrom (s : String) (i : Int) : String :=
  if i ≥ 0 then String.mk (s.data.drop i.toNat)
  else String.mk (s.data.drop (s.length - min s.length (-i).toNat))

/-- `itertools.groupby` runs of equal values (for the repeat counter),
returning `(length, value)` pairs. -/
def pyGroupRuns (beq : Value → Value → Bool) : List Value → List (Nat × Value)
  | [] => []
  | v :: rest => go v 1 rest
where
  go (cur : Value) (n : Nat) : List Value → List (Nat × Value)
  | [] => [(n, cur)]
  | w :: ws => if beq w cur then go cur (n + 1) ws else (n, cur) :: go w 1 ws

/-- Equality test used by `groupby` (`==` on the grouped values); the
serializer groups only scalar values, where Python `==` coincides with
structural equality except across numeric types, which the fragment below
does not mix. -/
def scalarBeq (a b : Value) : Bool :=
  match a, b with
  | .vint m, .vint n => m == n
  | .vbool p, .vbool q => p == q
  | .vreal f, .vreal g => f == g
  | .vcomplex f g, .vcomplex f' g' => f == f' && g == g'
  | .vstr s, .vstr t => s == t
  | .vnull, .vnull => true
  | _, _ => false

/-- An element of the value sequence fed to the output loop: a plain value or
a `RepeatValue` group. -/
inductive OutVal where
  | plain (v : Value)
  | repeated (n : Nat) (v : Value)

/-- `_f90repr` extended to `RepeatValue` (`_f90repeat`). -/
def f90reprOut (opts : NmlOpts) : OutVal → String
  | .plain v => f90repr opts v
  | .repeated n v =>
    if n = 1 then f90repr opts v
    else toString n ++ "*" ++ f90repr opts v

/-- Whether an output element is a Python `str` (for `split_strings`). -/
def OutVal.isStr : OutVal → Bool
  | .plain (.vstr _) => true
  | _ => false

/-- The `while v_r:` loop of the `split_strings` branch. -/
def splitStringLoop (opts : NmlOpts) :
    Nat → String → List String → String → String → String →
    (List String × String × String)
  | 0, vL, valStrs, valLine, _, _ => (valStrs, valLine, vL)
  | fuel + 1, vL, valStrs, valLine, vR, vComma =>
    let valLine := valLine ++ vL
    let valStrs := valStrs ++ [valLine]
    let valLine := ""
    let idx : Int := (opts.columnWidth : Int) - (pyRstrip vComma).length
    let vL' := pySliceTo vR idx
    let vR' := pySliceFrom vR idx
    if vR' = "" then (valStrs, valLine, vL')
    else splitStringLoop opts fuel vL' valStrs valLine vR' vComma

/-- The body of the output loop of `_var_strings` (the `for i_val, v_val in
enumerate(v_values)` loop), one iteration. -/
def varStringsIter (opts : NmlOpts) (vHeader : String) (nVals : Nat) :
    Nat → List OutVal → List String → String → List String × String
  | _, [], valStrs, valLine => (valStrs, valLine)
  | iVal, vVal :: rest, valStrs, valLine =>
    let columnWidth :=
      if vHeader.length ≥ opts.columnWidth then vHeader.length + 1
      else opts.columnWidth
    let (valStrs, valLine) :=
      if valLine.length < columnWidth then
        let vStr := f90reprOut opts vVal
        let vComma := if iVal < nVals - 1 ∨ opts.endComma then ", " else ""
        let (valStrs, valLine, vStr) :=
          if opts.splitStrings ∧ vVal.isStr then
            let idx : Int := (columnWidth : Int) - (valLine ++ pyRstrip vComma).length
            let vL := pySliceTo vStr idx
            let vR := pySliceFrom vStr idx
            if vR ≠ "" then
              let newValLine := String.mk (List.replicate vHeader.length ' ') ++
                vStr ++ vComma
              if (pyRstrip newValLine).length ≤ columnWidth then
                (valStrs ++ [valLine],
                 String.mk (List.replicate vHeader.length ' '), vStr)
              else
                let (valStrs, valLine, vL) :=
                  splitStringLoop opts (vStr.length + 2) vL valStrs valLine vR vComma
                (valStrs, valLine, vL)
            else (valStrs, valLine, vStr)
          else (valStrs, valLine, vStr)
        (valStrs, valLine ++ vStr ++ vComma)
      else (valStrs, valLine)
    if valLine.length ≥ columnWidth then
      varStringsIter opts vHeader nVals (iVal + 1) rest
        (valStrs ++ [pyRstrip valLine])
        (String.mk (List.replicate vHeader.length ' '))
    else
      varStringsIter opts vHeader nVals (iVal + 1) rest valStrs valLine

/-- The index prefix and header of the scalar/flat-array branch of
`_var_strings`, then its output loop. -/
def varStringsFlat (opts : NmlOpts) (vName : String) (vValues : Value)
    (vIdx : List Int) (vStart : Option (List (Option Int))) : List String :=
  let (vValuesL, useDefaultStartIndex) :=
    match vValues with
    | .vlist l => (l, opts.defaultStartIndex.isSome)
    | v => ([v], false)
  let vStartTruthy : Bool :=
    match vStart with | some vs => !vs.isEmpty | none => false
  let vIdxRepr :=
    if ¬vIdx.isEmpty ∨ vStartTruthy ∨ useDefaultStartIndex then
      let r := "("
      let r := r ++
        (if vStartTruthy ∨ useDefaultStartIndex then
          let iS : Option Int :=
            match vStart with
            | some (i :: _) => i
            | _ => opts.defaultStartIndex
          match iS with
          | none => ":"
          | some i =>
            let iE : Int := i + vValuesL.length - 1
            if i = iE then toString i
            else toString i ++ ":" ++ toString iE
        else ":")
      let r :=
        if ¬vIdx.isEmpty then
          let idxDelim := if opts.indexSpacing then ", " else ","
          r ++ idxDelim ++
            String.intercalate idxDelim (vIdx.reverse.map toString)
        else r
      r ++ ")"
    else ""
  let vHeader := opts.indent ++ vName ++ vIdxRepr ++ " = "
  let outVals : List OutVal :=
    if opts.repeatCounter then
      (pyGroupRuns scalarBeq vValuesL).map fun (n, v) => .repeated n v
    else vValuesL.map .plain
  let (valStrs, valLine) :=
    varStringsIter opts vHeader outVals.length 0 outVals [] vHeader
  let valStrs :=
    if valLine ≠ "" ∧ ¬(pyIsSpace valLine) then valStrs ++ [pyRstrip valLine]
    else valStrs
  -- final null values must always precede a comma
  if (!valStrs.isEmpty) &&
      (vValuesL.isEmpty ||
        (match vValuesL.getLast? with | some .vnull => true | _ => false)) then
    valStrs.dropLast ++ [valStrs.getLast! ++ " ,"]
  else valStrs

/-- `Namelist._var_strings`: render one variable (recursively for
multidimensional arrays, derived types and arrays of derived types) into the
list of output lines. -/
def varStringsF (opts : NmlOpts) :
    Nat → String → Value → List Int → Option (List (Option Int)) →
    List String
  | 0, _, _, _, _ => []
  | fuel + 1, vName₀, vValues, vIdx, vStart =>
    let vName := if opts.uppercase then pyUpper vName₀ else vName₀
    if isNullableListOfLists vValues then
      match vValues with
      | .vlist l =>
        let iSopt : Option Int :=
          match vStart with
          | some vs =>
            if vs.isEmpty then none   -- `if v_start` is false on []
            else (vs.reverse.get? vIdx.length).getD none
              -- an out-of-range index would raise IndexError; unreachable
          | none => none
        -- the 1-based fallback documented at the FIXME in the source
        let iS : Int := match iSopt with | none => 1 | some i => i
        (l.enum.map fun (k, val) =>
          varStringsF opts fuel vName val (vIdx ++ [iS + k]) vStart).flatten
      | _ => []
    else if (match vValues with | .vnml _ _ _ => true | _ => false) then
      match vValues with
      | .vnml entries startIndex _ =>
        (entries.map fun (fName, fVals) =>
          let vTitle := vName ++ "%" ++ fName
          varStringsF opts fuel vTitle fVals [] (alistGet startIndex fName)).flatten
      | _ => []
    else if isNullableListOfNml vValues then
      match vValues with
      | .vlist l =>
        let iS : Int :=
          match vStart with
          | some vs =>
            if vs.isEmpty then 1   -- `if v_start` false on [] gives the `else 1`
            else (((vs.reverse.get? vIdx.length).getD none).getD 1)
              -- IndexError and a `None` entry are unreachable here
          | none => 1
        (l.enum.map fun (k, val) =>
          match val with
          | .vnull => []   -- skip empty elements of a list of derived types
          | _ =>
            let vTitle := vName ++ "(" ++ toString (iS + k) ++ ")"
            varStringsF opts fuel vTitle val [] none).flatten
      | _ => []
    else
      varStringsFlat opts vName vValues vIdx vStart

/-- `Namelist._write_nmlgrp` (the unsorted path): one `&name ... /` block;
the blank-line separation between groups is handled by the caller via the
`_newline` flag. -/
def writeNmlgrp (opts : NmlOpts) (fuel : Nat) (grpName : String)
    (grpVars : NML) : String :=
  let grpName := if opts.uppercase then pyUpper grpName else grpName
  "&" ++ grpName ++ "\n" ++
  String.join (grpVars.entries.map fun (vName, vVal) =>
    let vStart := alistGet grpVars.startIndex vName
    String.join ((varStringsF opts fuel vName vVal [] vStart).map (· ++ "\n"))) ++
  "/\n"

/-- `Namelist._writestream` (the unsorted path): the groups in insertion
order, cogroup entries exposed under their base name, separated by blank
lines. -/
def writestream (opts : NmlOpts) (fuel : Nat) (n : NML) : String :=
  String.intercalate "\n" (n.entries.map fun (key, grpVal) =>
    let grpVars : NML :=
      match grpVal with
      | .vnml e si cg => ⟨e, si, cg⟩
      | _ => ⟨[], [], []⟩   -- a non-namelist group is unreachable here
    writeNmlgrp opts fuel (cogroupBasename key) grpVars)

/-- `Namelist.__str__`: the streamed output right-stripped, provided every
value is a namelist group (the `repr` fallback is outside the fragment the
claims exercise). -/
def nmlStr (opts : NmlOpts) (fuel : Nat) (n : NML) : String :=
  if n.entries.all (fun e => match e.2 with | .vnml _ _ _ => true | _ => false) then
    pyRstrip (writestream opts fuel n)
  else "<repr>"

/-! ## Parser (`parser.py`)

Exceptions (`StopIteration`, `ValueError`, `AssertionError`, `KeyError`,
`TypeError`) become explicit `PErr` results.  Since a Python exception does
not undo earlier attribute mutations or file writes, every parser operation
returns the post-mutation state in both the success and the error case. -/

instance : Inhabited Value := ⟨.vnull⟩

/-- Parser configuration attributes with their constructor defaults. -/
structure PConfig where
  defaultStartIndex : Int := 1
  globalStartIndex : Option Int := none
  commentTokens : String := "!"
  sparseArrays : Bool := false
  rowMajor : Bool := false
  strictLogical : Bool := true

/-- The Python exceptions the parser can raise. -/
inductive PErr where
  | stopIteration
  | valueError (msg : String)
  | typeError (msg : String)
  | assertionError
  | keyError (key : String)
  | outOfFuel
deriving DecidableEq

/-- Mutable parser state: the remaining token stream, the lookahead pair
`token` / `prior_token` (the empty string models Python `None`, which no
genuine token equals), and the accumulated patch-file output (`none` when not
patching). -/
structure PState where
  tokens : List String
  token : String := ""
  priorToken : String := ""
  pfile : Option String := none

/-- A parser result: value or exception, each with the resulting state. -/
inductive PRes (α : Type) where
  | ok (a : α) (σ : PState)
  | err (e : PErr) (σ : PState)

def PRes.bind {α β : Type} (r : PRes α) (f : α → PState → PRes β) : PRes β :=
  match r with
  | .ok a σ => f a σ
  | .err e σ => .err e σ

/-- `self.pfile.write(s)` (a no-op when not patching). -/
def PState.pwrite (σ : PState) (s : String) : PState :=
  match σ.pfile with
  | some out => { σ with pfile := some (out ++ s) }
  | none => σ

/-- Modelled CPython message of a failed `int()` call (the quoting of the
offending text is omitted). -/
def intErrMsg (tok : String) : String :=
  "invalid literal for int() with base 10: " ++ tok

/-- Membership of a token head in `self.comment_tokens + whitespace`. -/
def inCommentOrWs (cfg : PConfig) (c : Char) : Bool :=
  pyCharIn c cfg.commentTokens || pyIsSpaceChar c

/-- The inner comment-copying loop of `_update_tokens` (`while not next_token
== '\n'`); `none` models the uncaught `StopIteration` raised when the stream
ends inside it. -/
def commentCopy : List String → String → String →
    Option (String × String × List String)
  | rest, patchTokens, nextTok =>
    if nextTok = "\n" then some (patchTokens, nextTok, rest)
    else match rest with
      | [] => none
      | t :: r => commentCopy r (patchTokens ++ nextTok) t

/-- The whitespace/comment-skipping loop of `_update_tokens`, carrying the
pending `patch_value` and `patch_tokens` strings. -/
def wsSkipLoop (cfg : PConfig) :
    Nat → PState → String → String → String → Bool → PRes Unit
  | 0, σ, _, _, _, _ => .err .outOfFuel σ
  | fuel + 1, σ, nextTok, patchValue, patchTokens, patchSkip =>
    if inCommentOrWs cfg (tokHead nextTok) then
      match (if σ.pfile.isSome ∧ pyCharIn (tokHead nextTok) cfg.commentTokens then
          commentCopy σ.tokens patchTokens nextTok
        else some (patchTokens, nextTok, σ.tokens)) with
      | none =>
        -- StopIteration inside the comment loop: nothing is flushed
        .err .stopIteration { σ with tokens := [] }
      | some (pt, nt, rest) =>
        let pt := if σ.pfile.isSome then pt ++ nt else pt
        match rest with
        | [] =>
          -- StopIteration from the guarded `next`: flush, then re-raise
          let pt := if ¬patchSkip ∨ nt = "=" ∨ nt = "(" ∨ nt = "%" then
              patchValue ++ pt
            else pt
          .err .stopIteration (({ σ with tokens := [] }).pwrite pt)
        | t :: r => wsSkipLoop cfg fuel { σ with tokens := r } t patchValue pt patchSkip
    else
      let pt := if ¬patchSkip ∨ nextTok = "=" ∨ nextTok = "(" ∨ nextTok = "%" then
          patchValue ++ patchTokens
        else patchTokens
      .ok () (({ σ with token := nextTok, priorToken := σ.token }).pwrite pt)

/-- `Parser._update_tokens`: advance the lookahead pair to the next
non-padding token, writing the retired token (or its override) and all
skipped whitespace and comment tokens to the patch file. -/
def updateTokensF (cfg : PConfig) (fuel : Nat) (σ : PState)
    (writeToken : Bool := true) (override : Option String := none)
    (patchSkip : Bool := false) : PRes Unit :=
  match σ.tokens with
  | [] => .err .stopIteration σ
  | nextTok :: rest =>
    let patchValue :=
      if σ.pfile.isSome ∧ writeToken then
        match override with
        | some ov => if ov ≠ "" then ov else σ.token   -- `override if override else`
        | none => σ.token
      else ""
    wsSkipLoop cfg fuel { σ with tokens := rest } nextTok patchValue "" patchSkip

/-- The recast chain of `_parse_value`: `int`, `pyfloat`, `pycomplex`,
`pybool`, `pystr`; a value none of them accepts is Python `None`. -/
def recastValue (cfg : PConfig) (s : String) : Value :=
  match pyint s with
  | some n => .vint n
  | none =>
  match pyfloat s with
  | some f => .vreal f
  | none =>
  match pycomplex s with
  | some (re, im) => .vcomplex re im
  | none =>
  match pybool s cfg.strictLogical with
  | some b => .vbool b
  | none => .vstr (pystr s)

/-- `Parser._parse_value`: the prior token, or a reassembled `(re, im)`
complex literal, recast to a Python value. -/
def parseValueF (cfg : PConfig) (fuel : Nat) (σ : PState)
    (writeToken : Bool := true) (override : Option String := none) :
    PRes Value :=
  let vStr := σ.priorToken
  if vStr = "(" then
    let vRe := σ.token
    (updateTokensF cfg fuel σ writeToken).bind fun _ σ =>
    if σ.token ≠ "," then .err .assertionError σ else
    (updateTokensF cfg fuel σ writeToken).bind fun _ σ =>
    let vIm := σ.token
    (updateTokensF cfg fuel σ writeToken).bind fun _ σ =>
    if σ.token ≠ ")" then .err .assertionError σ else
    (updateTokensF cfg fuel σ writeToken override).bind fun _ σ =>
    .ok (recastValue cfg ("(" ++ vRe ++ ", " ++ vIm ++ ")")) σ
  else .ok (recastValue cfg vStr) σ

/-- `Parser._parse_index`: one `start[:end[:stride]]` triplet, with the
empty-index, implicit-end-under-stride, implicit-stride, zero-stride and
unterminated-index `ValueError`s of the source. -/
def parseIndexF (cfg : PConfig) (fuel : Nat) (σ : PState) (vName : String) :
    PRes (Option Int × Option Int × Option Int) :=
  (updateTokensF cfg fuel σ).bind fun _ σ =>
  -- start index
  (match pyint σ.token with
   | some n => (updateTokensF cfg fuel σ).bind fun _ σ => .ok (some n) σ
   | none =>
     if σ.token = "," ∨ σ.token = ")" then
       .err (.valueError (vName ++ " index cannot be empty.")) σ
     else if σ.token ≠ ":" then .err (.valueError (intErrMsg σ.token)) σ
     else .ok none σ).bind fun iStart σ =>
  -- end index
  (if σ.token = ":" then
    (updateTokensF cfg fuel σ).bind fun _ σ =>
    match pyint σ.token with
    | some n => (updateTokensF cfg fuel σ).bind fun _ σ => .ok (some (1 + n)) σ
    | none =>
      if σ.token = ":" then
        .err (.valueError
          (vName ++ " end index cannot be implicit when using stride.")) σ
      else if ¬(σ.token = "," ∨ σ.token = ")") then
        .err (.valueError (intErrMsg σ.token)) σ
      else .ok none σ
  else if σ.token = "," ∨ σ.token = ")" then
    -- replace a single index with a single-index range
    match iStart with
    | some s => .ok (some (1 + s)) σ
    | none => .ok none σ
  else .ok none σ).bind fun iEnd σ =>
  -- stride index
  (if σ.token = ":" then
    (updateTokensF cfg fuel σ).bind fun _ σ =>
    match pyint σ.token with
    | some n =>
      if n = 0 then
        .err (.valueError (vName ++ " stride index cannot be zero.")) σ
      else (updateTokensF cfg fuel σ).bind fun _ σ => .ok (some n) σ
    | none =>
      if σ.token = ")" then
        .err (.valueError (vName ++ " stride index cannot be implicit.")) σ
      else .err (.valueError (intErrMsg σ.token)) σ
  else .ok none σ).bind fun iStride σ =>
  if ¬(σ.token = "," ∨ σ.token = ")") then
    .err (.valueError (vName ++ " index did not terminate correctly.")) σ
  else .ok (iStart, iEnd, iStride) σ

/-- `Parser._parse_indices`: `while self.token in (',', '(')`. -/
def parseIndicesF (cfg : PConfig) :
    Nat → PState → String → List (Option Int × Option Int × Option Int) →
    PRes (List (Option Int × Option Int × Option Int))
  | 0, σ, _, _ => .err .outOfFuel σ
  | fuel + 1, σ, vName, acc =>
    if σ.token = "," ∨ σ.token = "(" then
      (parseIndexF cfg fuel σ vName).bind fun triplet σ =>
        parseIndicesF cfg fuel σ vName (acc ++ [triplet])
    else .ok acc σ

/-- Python list read `l[i]` (negative indices wrap); `none` is
`IndexError`. -/
def pyListGet (l : List Value) (i : Int) : Option Value :=
  if i ≥ 0 then l.get? i.toNat
  else
    let j := (l.length : Int) + i
    if j ≥ 0 then l.get? j.toNat else none

/-- Python list write `l[i] = x`; `none` is `IndexError`. -/
def pyListSetV (l : List Value) (i : Int) (x : Value) :
    Option (List Value) :=
  if i ≥ 0 then
    if i.toNat < l.length then some (l.set i.toNat x) else none
  else
    let j := (l.length : Int) + i
    if j ≥ 0 ∧ j < l.length then some (l.set j.toNat x) else none

/-- The nested descend-and-assign of `_append_value`: walk the outer
coordinates (growing missing sublists with empty lists), then assign at the
innermost coordinate (growing with nulls). -/
def appendSetF : Nat → List Value → List (Int × Int) → Value → List Value
  | 0, v, _, _ => v
  | fuel + 1, v, idxList, x =>
    match idxList with
    | [] => v   -- unreachable: the coordinate tuple is nonempty
    | [(iV, iS)] =>
      let pos := iV - iS
      match pyListSetV v pos x with
      | some v' => v'
      | none =>
        let v := v ++ List.replicate (pos + 1 - v.length).toNat .vnull
        (pyListSetV v pos x).getD v
    | (iV, iS) :: rest =>
      let pos := iV - iS
      match pyListGet v pos with
      | some e =>
        let e' := match e with
          | .vlist l => Value.vlist (appendSetF fuel l rest x)
          | _ => e   -- a non-list element would raise in Python; unreachable
        (pyListSetV v pos e').getD v
      | none =>
        let v := v ++ List.replicate (pos + 1 - v.length).toNat (.vlist [])
        match pyListGet v pos with
        | some (.vlist l) =>
          (pyListSetV v pos (Value.vlist (appendSetF fuel l rest x))).getD v
        | _ => v

/-- `Parser._append_value`: place `next_value` `n_vals` times, either by
plain append or through the index iterator (exhaustion of a bounded iterator
stops placement, as the caught `StopIteration` with its warning does). -/
def appendValueF (cfg : PConfig) (fuel : Nat) :
    Nat → List Value → Value → Option FIndex → List Value × Option FIndex
  | 0, vValues, _, vIdx => (vValues, vIdx)
  | n + 1, vValues, nextValue, vIdx =>
    match vIdx with
    | some f =>
      match f.next with
      | none => (vValues, some f)   -- warn (if non-null) and stop
      | some (vI, f') =>
        let vS := f'.first.map (fun o => o.getD cfg.defaultStartIndex)
        let (vI, vS) :=
          if ¬cfg.rowMajor then (vI.reverse, vS.reverse) else (vI, vS)
        let vValues :=
          if ¬cfg.sparseArrays then padArrayF fuel vValues (vI.zip vS)
          else vValues
        let vValues := appendSetF fuel vValues (vI.zip vS) nextValue
        appendValueF cfg fuel n vValues nextValue (some f')
    | none => appendValueF cfg fuel n (vValues ++ [nextValue]) nextValue none

/-- `Namelist.get` as the parser uses it for plain values (the cogroup view
is a `list` subclass and so appears as a list value). -/
def NML.getOpt (n : NML) (k : String) : Option Value :=
  match n.get k with
  | some (.inl v) => some v
  | some (.inr l) => some (.vlist l)
  | none => none

/-- The repeat count as a Python `range` bound (negative counts iterate zero
times). -/
def countOfNVals (nVals : Option Int) : Nat := (nVals.getD 1).toNat

/-- The value-reading loop of `_parse_variable` (step 3 of the spec):
repeat counts, implicit nulls and literal values, with the patch-mode
substitution of values from `patch_values`. -/
def valueLoopF (cfg : PConfig) :
    Nat → PState → List Value → Option FIndex → Option Int →
    Option (List Value) → Nat → PRes (List Value)
  | 0, σ, _, _, _, _, _ => .err .outOfFuel σ
  | fuel + 1, σ, vValues, vIdx, nVals, patchValues, pIdx =>
    if ¬(¬(σ.token = "=" ∨ σ.token = "(" ∨ σ.token = "%") ∨
        (σ.priorToken = "=" ∧ σ.token = "(") ∨
        (σ.priorToken = "," ∧ σ.token = "(")) then
      .ok vValues σ
    else
      -- check for repeated values
      (if σ.token = "*" then
        (parseValueF cfg fuel σ).bind fun v σ =>
          match v with
          | .vint n => (updateTokensF cfg fuel σ).bind fun _ σ => .ok (some n) σ
          | .vbool b =>
            -- `assert isinstance(n_vals, int)` admits bool, an int subclass
            (updateTokensF cfg fuel σ).bind fun _ σ =>
              .ok (some (if b then (1 : Int) else 0)) σ
          | _ => .err .assertionError σ
       else if ¬pyTruthyOptInt nVals then .ok (some 1) σ
       else .ok nVals σ).bind fun nVals σ =>
      -- implicit nulls, repeated nulls/values, or a literal value
      (if σ.priorToken = "=" ∨ σ.priorToken = "%" ∨ σ.priorToken = "," then
        if (σ.token = "," ∨ σ.token = "/" ∨ σ.token = "&" ∨ σ.token = "$") ∧
            ¬(σ.priorToken = "," ∧
              (σ.token = "/" ∨ σ.token = "&" ∨ σ.token = "$")) then
          .ok (appendValueF cfg fuel (countOfNVals nVals) vValues .vnull vIdx) σ
        else .ok (vValues, vIdx) σ
      else if σ.priorToken = "*" then
        (if ¬(σ.token = "/" ∨ σ.token = "&" ∨ σ.token = "$") then
          updateTokensF cfg fuel σ
        else .ok () σ).bind fun _ σ =>
        if σ.priorToken = "," ∨ σ.token = "=" ∨
            ((σ.token = "/" ∨ σ.token = "&" ∨ σ.token = "$") ∧
              σ.priorToken = "*") then
          -- XXX: repeated `,,` after `N*` is off by one (comment in source)
          let nVals := if σ.priorToken = "," ∧ σ.token = "," then
              (nVals.map (· + 1))
            else nVals
          .ok (appendValueF cfg fuel (countOfNVals nVals) vValues .vnull vIdx) σ
        else
          (parseValueF cfg fuel σ).bind fun v σ =>
            .ok (appendValueF cfg fuel (countOfNVals nVals) vValues v vIdx) σ
      else
        (parseValueF cfg fuel σ).bind fun v σ =>
          .ok (appendValueF cfg fuel (countOfNVals nVals) vValues v vIdx) σ
      ).bind fun (vValues, vIdx) σ =>
      -- exit for end of group or null broadcast
      if σ.token = "/" ∨ σ.token = "&" ∨ σ.token = "$" ∨ σ.token = "=" then
        .ok vValues σ
      else
        match patchValues with
        | some pvs =>
          if ¬pvs.isEmpty then
            let lookahead := σ.token :: σ.tokens
            if pIdx < pvs.length ∧ checkForValue lookahead ∧ σ.token ≠ "," then
              let pVal := pvs.getD pIdx .vnull
              let pRepr := f90repr {} pVal
              (updateTokensF cfg fuel σ true (some pRepr)).bind fun _ σ =>
              (if (match pVal with | .vcomplex _ _ => true | _ => false) then
                -- skip over the complex content
                (updateTokensF cfg fuel σ false).bind fun _ σ =>
                (updateTokensF cfg fuel σ false).bind fun _ σ =>
                (updateTokensF cfg fuel σ false).bind fun _ σ =>
                updateTokensF cfg fuel σ false
              else .ok () σ).bind fun _ σ =>
              valueLoopF cfg fuel σ vValues vIdx (some 1) patchValues (pIdx + 1)
            else
              -- skip any values beyond the patch size
              let skip := pIdx ≥ pvs.length
              (updateTokensF cfg fuel σ true none skip).bind fun _ σ =>
                valueLoopF cfg fuel σ vValues vIdx (some 1) patchValues pIdx
          else
            (updateTokensF cfg fuel σ).bind fun _ σ =>
              valueLoopF cfg fuel σ vValues vIdx (some 1) patchValues pIdx
        | none =>
          (updateTokensF cfg fuel σ).bind fun _ σ =>
            valueLoopF cfg fuel σ vValues vIdx (some 1) patchValues pIdx

/-- How the derived-type parent retrieved in `_parse_variable` aliases the
enclosing namelist: stored under the variable entry, stored as a list
element, or a fresh unaliased namelist. -/
inductive DtAlias where
  | store
  | listElem (i : Int)
  | fresh

/-- The resize loop of the non-indexed re-indexing branch of
`_parse_variable` (`for i_p, i_v in zip(p_start, v_start)`). -/
def reindexPads : List (Option Int × Int) → NML → String → PState →
    PRes NML
  | [], parent, _, σ => .ok parent σ
  | (iP, iV) :: rest, parent, vName, σ =>
    match iP with
    | none => .err (.typeError "NoneType comparison") σ
    | some p =>
      if iV < p then
        match parent.get vName with
        | some (.inl (.vlist l)) =>
          reindexPads rest
            (parent.set vName (.vlist (List.replicate (p - iV).toNat .vnull ++ l)))
            vName σ
        | some _ => .err (.typeError "pad + non-list") σ
        | none => .err (.keyError vName) σ
      else reindexPads rest parent vName σ

/-- `Parser._parse_variable`: returns the variable name, its parsed value,
the updated enclosing namelist (Python mutates it through aliasing) and the
updated patch group (Python mutates it through `pop`). -/
def parseVariableF (cfg : PConfig) :
    Nat → PState → NML → Option NML → PRes (String × Value × NML × NML)
  | 0, σ, _, _ => .err .outOfFuel σ
  | fuel + 1, σ, parent, patchNml =>
    -- `if not patch_nml: patch_nml = Namelist()`
    let patchEff : NML :=
      match patchNml with
      | some p => if p.pyTruthy then p else ⟨[], [], []⟩
      | none => ⟨[], [], []⟩
    let vName := σ.priorToken
    -- index phase
    (if σ.token = "(" then
      (parseIndicesF cfg fuel σ vName []).bind fun bounds σ =>
      let vIdx := FIndex.init bounds cfg.globalStartIndex
      let lname := pyLower vName
      (match alistGet parent.startIndex lname with
       | some pIdxList =>
         -- reconcile the starting index against the namelist record
         let firsts := (pIdxList.zip vIdx.first).map fun (p, f) =>
           match p, f with
           | none, none => none
           | some a, none => some a
           | none, some b => some b
           | some a, some b => some (min a b)
         let vIdx := { vIdx with first := firsts ++ vIdx.first.drop firsts.length }
         -- resize vector based on starting index
         (match parent.get vName with
          | some (.inl (.vlist l)) =>
            .ok (vIdx,
              parent.set vName (.vlist (prepadArrayF fuel l pIdxList vIdx.first))) σ
          | some _ => .err (.typeError "prepad_array of a non-list") σ
          | none => .err (.keyError vName) σ)
       | none =>
         -- a variable existing without an index assumes a 1-based index
         if parent.contains vName then
           .ok ({ vIdx with
              first := vIdx.first.map fun _ => some cfg.defaultStartIndex },
             parent) σ
         else .ok (vIdx, parent) σ : PRes (FIndex × NML)).bind
        fun (vIdx, parent) σ =>
      let parent :=
        { parent with startIndex := alistSet parent.startIndex lname vIdx.first }
      (updateTokensF cfg fuel σ).bind fun _ σ =>
      -- derived type parent check
      if σ.token = "%" then
        match bounds.head? with
        | some (some s, some e, _) =>
          if e - s ≠ 1 then .err .assertionError σ
          else
            match vIdx.first.head? with
            | some (some f₀) => .ok (some vIdx, some (s - f₀), parent) σ
            | some none => .err (.typeError "int - NoneType") σ
            | none => .err (.typeError "first index missing") σ
        | some _ => .err (.typeError "NoneType arithmetic in index assert") σ
        | none => .err (.typeError "empty index bounds") σ
      else .ok (some vIdx, none, parent) σ
    else
      -- re-index an already indexed variable assigned without an index
      -- (NOTE: the membership test is on the unlowered name, as in the source)
      match alistGet parent.startIndex vName with
      | some _ =>
        (match alistGet parent.startIndex (pyLower vName) with
         | some pStart =>
           let vStart := pStart.map fun _ => cfg.defaultStartIndex
           (reindexPads (pStart.zip vStart) parent vName σ).bind fun parent σ =>
             .ok ((none : Option FIndex), (none : Option Int),
               { parent with
                 startIndex := alistSet parent.startIndex (pyLower vName) vStart }) σ
         | none => .err (.keyError (pyLower vName)) σ)
      | none => .ok ((none : Option FIndex), (none : Option Int), parent) σ
    : PRes (Option FIndex × Option Int × NML)).bind fun (vIdx, dtIdx, parent) σ =>
    if σ.token = "%" then
      -- resolve the derived type
      let vPatchVal : Option Value :=
        if patchEff.contains vName then patchEff.getOpt vName else none
      (if parent.pyTruthy then
        match parent.getOpt (pyLower vName) with
        | some vpar =>
          if vpar.pyTruthy && (match vpar with | .vlist _ => true | _ => false) then
            let l := match vpar with | .vlist l => l | _ => []
            -- a non-list new element is assumed the first element of the list
            let di := dtIdx.getD cfg.defaultStartIndex
            match pyListGet l di with
            | some e =>
              (match e.toNML? with
               | some n => .ok (n, DtAlias.listElem di) σ
               | none => .err (.typeError "derived-type parent is not a namelist") σ)
            | none => .ok ((⟨[], [], []⟩ : NML), DtAlias.fresh) σ
          else if vpar.pyTruthy then
            match vpar.toNML? with
            | some n => .ok (n, DtAlias.store) σ
            | none => .err (.typeError "derived-type parent is not a namelist") σ
          else .ok ((⟨[], [], []⟩ : NML), DtAlias.fresh) σ
        | none => .ok ((⟨[], [], []⟩ : NML), DtAlias.fresh) σ
      else
        -- `parent[v_name] = v_parent` on an empty parent
        .ok ((⟨[], [], []⟩ : NML), DtAlias.store) σ : PRes (NML × DtAlias)).bind
        fun (vParent, aliasKind) σ =>
      (updateTokensF cfg fuel σ).bind fun _ σ =>
      (updateTokensF cfg fuel σ).bind fun _ σ =>
      (match vPatchVal with
       | some (.vnml e s c) => .ok (some (⟨e, s, c⟩ : NML)) σ
       | some v =>
         if v.pyTruthy then .err (.typeError "patch value is not a dict") σ
         else .ok (none : Option NML) σ
       | none => .ok (none : Option NML) σ : PRes (Option NML)).bind
        fun patchArg σ =>
      (parseVariableF cfg fuel σ vParent patchArg).bind
        fun (vAtt, vAttVals, vParent', patchSub) σ =>
      -- aliasing write-back of the mutated derived-type parent
      let parent :=
        match aliasKind with
        | .store => parent.set vName (Value.ofNML vParent')
        | .listElem i =>
          (match parent.getOpt (pyLower vName) with
           | some (.vlist l) =>
             match pyListSetV l i (Value.ofNML vParent') with
             | some l' => parent.set vName (.vlist l')
             | none => parent
           | _ => parent)
        | .fresh => parent
      -- aliasing write-back of the mutated patch sub-namelist
      let patchEff :=
        match vPatchVal with
        | some (.vnml e s c) =>
          if (Value.vnml e s c).pyTruthy then
            patchEff.set vName (Value.ofNML patchSub)
          else patchEff
        | _ => patchEff
      let nextValue := Value.ofNML ⟨[(pyLower vAtt, vAttVals)], [], []⟩
      let (vValues, vIdx) := appendValueF cfg fuel 1 [] nextValue vIdx
      let result := if vIdx.isNone then delist vValues else Value.vlist vValues
      .ok (vName, result, parent, patchEff) σ
    else
      -- construct the variable array
      if σ.token ≠ "=" then .err .assertionError σ else
      (updateTokensF cfg fuel σ).bind fun _ σ =>
      let (patchValues, patchEff) :=
        if patchEff.contains vName then
          let (pv, p') := patchEff.popEntry (pyLower vName)
          match pv with
          | some (.vlist l) => (some l, p')
          | some v => (some [v], p')
          | none => ((none : Option (List Value)), p')
            -- contains only via cogroups: Python would raise KeyError
        else (none, patchEff)
      (valueLoopF cfg fuel σ [] vIdx none patchValues 0).bind fun vValues σ =>
      let vValues :=
        match patchValues with
        | some l => if ¬l.isEmpty then l else vValues
        | none => vValues
      let result := if vIdx.isNone then delist vValues else Value.vlist vValues
      .ok (vName, result, parent, patchEff) σ

/-- The squeeze of singleton lists after each assignment in `_readstream`
(`for v_name, v_values in g_vars.items(): ...`). -/
def squeezeVars (g : NML) : NML :=
  { g with entries := g.entries.map fun (k, v) =>
      match v with
      | .vlist [x] => if (alistGet g.startIndex k).isNone then (k, x) else (k, v)
      | _ => (k, v) }

/-- The statement loop of `_readstream` (`while g_name:`): advance past
non-trigger tokens, parse assignments, and finalise the group on its
terminator, appending any remaining patch variables to the group and to the
patch output. -/
def groupLoopF (cfg : PConfig) :
    Nat → PState → String → NML → NML → NML → PRes NML
  | 0, σ, _, _, _, _ => .err .outOfFuel σ
  | fuel + 1, σ, gName, gVars, grpPatch, nmls =>
    (if ¬(σ.token = "=" ∨ σ.token = "%" ∨ σ.token = "(") then
      match updateTokensF cfg fuel σ with
      | .err .stopIteration σ =>
        .err (.valueError
          ("End-of-file before end of namelist group: &" ++ gName)) σ
      | .err e σ => .err e σ
      | .ok _ σ => .ok () σ
    else .ok () σ : PRes Unit).bind fun _ σ =>
    -- set the next active variable
    (if σ.token = "=" ∨ σ.token = "(" ∨ σ.token = "%" then
      (parseVariableF cfg fuel σ gVars (some grpPatch)).bind
        fun (vName, vValues, gVars, grpPatch) σ =>
        let vValues :=
          if gVars.contains vName then
            match gVars.getOpt (pyLower vName) with
            | some prior => mergeValuesF fuel prior vValues
            | none => vValues
          else vValues
        let gVars := gVars.set vName vValues
        .ok (squeezeVars gVars, grpPatch) σ
    else .ok (gVars, grpPatch) σ : PRes (NML × NML)).bind
      fun (gVars, grpPatch) σ =>
    -- finalise the namelist group
    if σ.token = "/" ∨ σ.token = "&" ∨ σ.token = "$" then
      let (gVars, σ) := grpPatch.entries.foldl
        (fun (acc : NML × PState) (e : String × Value) =>
          let gVars := acc.1.set e.1 e.2
          let vStrs := varStringsF {} fuel e.1 e.2 [] none
          (gVars, vStrs.foldl (fun σ s => σ.pwrite (s ++ "\n")) acc.2))
        (gVars, σ)
      let nmls :=
        if nmls.contains gName then nmls.addCogroup gName (Value.ofNML gVars)
        else nmls.set gName (Value.ofNML gVars)
      .ok nmls σ
    else
      groupLoopF cfg fuel σ gName gVars grpPatch nmls

/-- `while self.token not in ('&', '$'): self._update_tokens()`. -/
def skipToGroupF (cfg : PConfig) : Nat → PState → PRes Unit
  | 0, σ => .err .outOfFuel σ
  | fuel + 1, σ =>
    if σ.token = "&" ∨ σ.token = "$" then .ok () σ
    else (updateTokensF cfg fuel σ).bind fun _ σ => skipToGroupF cfg fuel σ

/-- The top-level `while True` loop of `_readstream`: skip to each group
opener, read the group name, pop its patch group, populate the group, and
continue until the stream ends.  Returns the parsed namelist and the
unconsumed remainder of the patch. -/
def parseLoopF (cfg : PConfig) : Nat → PState → NML → NML → PRes (NML × NML)
  | 0, σ, _, _ => .err .outOfFuel σ
  | fuel + 1, σ, nmls, nmlPatch =>
    match ((if σ.token = "end" then updateTokensF cfg fuel σ
        else .ok () σ).bind fun _ σ => skipToGroupF cfg fuel σ) with
    | .err .stopIteration σ => .ok (nmls, nmlPatch) σ
    | .err e σ => .err e σ
    | .ok _ σ =>
      match updateTokensF cfg fuel σ with
      | .err .stopIteration σ =>
        .err (.valueError "End-of-file after namelist group token `&`.") σ
      | .err e σ => .err e σ
      | .ok _ σ =>
        let gName := σ.token
        let (grpPatchOpt, nmlPatch) := nmlPatch.popEntry (pyLower gName)
        let grpPatch : NML :=
          match grpPatchOpt with
          | some (.vnml e s c) => ⟨e, s, c⟩
          | _ => ⟨[], [], []⟩   -- non-dict patch groups are out of fragment
        (groupLoopF cfg fuel σ gName ⟨[], [], []⟩ grpPatch nmls).bind
          fun nmls σ =>
        match updateTokensF cfg fuel σ with
        | .err .stopIteration σ => .ok (nmls, nmlPatch) σ
        | .err e σ => .err e σ
        | .ok _ σ => parseLoopF cfg fuel σ nmls nmlPatch

/-- `str.splitlines(keepends=True)` on the `'\n'` fragment (the namelist
sources under study contain no other line boundaries). -/
def pySplitlines (s : String) : List String :=
  go s.data []
where
  go : List Char → List Char → List String
  | [], acc => if acc.isEmpty then [] else [String.mk acc.reverse]
  | c :: rest, acc =>
    if c = '\n' then String.mk (acc.reverse ++ ['\n']) :: go rest []
    else go rest (c :: acc)

/-- The string-continuation loop of the lexing stage of `_readstream`
(`while tokenizer.prior_delim:`): pull further lines and splice their tokens
onto the pending string token. -/
def lexContF : Nat → Option Char → GroupTok → List String → List String →
    Except PErr (List String × Option Char × GroupTok × List String)
  | 0, _, _, _, _ => .error .outOfFuel
  | fuel + 1, pd, gt, toks, lines =>
    match pd with
    | none => .ok (toks, pd, gt, lines)
    | some _ =>
      match lines with
      | [] => .error .stopIteration   -- `next(nml_file)` raises
      | line :: rest =>
        match tokenizerParse pd gt line with
        | none => .error (.valueError "tokenizer error")
        | some (newToks, st) =>
          -- skip empty lines
          if newToks.isEmpty then
            lexContF fuel st.priorDelim st.groupToken toks rest
          else
            -- splice leading whitespace and the string continuation onto the
            -- pending token, then attach the remaining tokens
            let (toks, newToks) :=
              if pyIsSpace (newToks.headD "") then
                (toks.dropLast ++ [toks.getLastD "" ++ newToks.headD ""],
                 newToks.tail)
              else (toks, newToks)
            let toks :=
              match newToks with
              | [] => toks
              | t :: ts => toks.dropLast ++ [toks.getLastD "" ++ t] ++ ts
            lexContF fuel st.priorDelim st.groupToken toks rest

/-- The per-line lexing stage of `_readstream`: tokenize every line,
splicing string continuations, and append the synthetic `'\n'` token after
each line's tokens. -/
def lexLinesF : Nat → Option Char → GroupTok → List String →
    Except PErr (List String)
  | 0, _, _, _ => .error .outOfFuel
  | fuel + 1, pd, gt, lines =>
    match lines with
    | [] => .ok []
    | line :: rest =>
      match tokenizerParse pd gt line with
      | none => .error (.valueError "tokenizer error")
      | some (toks, st) =>
        match lexContF fuel st.priorDelim st.groupToken toks rest with
        | .error e => .error e
        | .ok (toks, pd', gt', rest') =>
          match lexLinesF fuel pd' gt' rest' with
          | .error e => .error e
          | .ok restToks => .ok (toks ++ ["\n"] ++ restToks)

/-- `Parser._readstream`: lex the lines, then run the group loop; if the
patch retains unconsumed groups, print them to the patch file and install
them in the result. -/
def readstreamF (cfg : PConfig) (fuel : Nat) (lines : List String)
    (nmlPatch : NML) (patching : Bool) : PRes NML :=
  let pf : Option String := if patching then some "" else none
  match lexLinesF fuel none .unset lines with
  | .error e => .err e { tokens := [], pfile := pf }
  | .ok f90lex =>
    let σ : PState := { tokens := f90lex, pfile := pf }
    -- attempt to get the first token; abort on empty file
    match updateTokensF cfg fuel σ false with
    | .err .stopIteration σ => .ok ⟨[], [], []⟩ σ
    | .err e σ => .err e σ
    | .ok _ σ =>
      (parseLoopF cfg fuel σ ⟨[], [], []⟩ nmlPatch).bind
        fun (nmls, nmlPatch) σ =>
      if nmlPatch.pyTruthy then
        -- append the remaining patch contents to the output and the result
        let σ := σ.pwrite "\n"
        let σ := σ.pwrite (nmlStr {} fuel nmlPatch ++ "\n")
        let nmls := nmlPatch.entries.foldl
          (fun (acc : NML) (e : String × Value) => acc.set (cogroupBasename e.1) e.2)
          nmls
        .ok nmls σ
      else .ok nmls σ

/-- `Parser.reads`: parse a namelist string, converting an escaped
`StopIteration` into the end-of-file `ValueError`. -/
def readsF (cfg : PConfig) (fuel : Nat) (source : String) : PRes NML :=
  match readstreamF cfg fuel (pySplitlines source) ⟨[], [], []⟩ false with
  | .err .stopIteration σ =>
    .err (.valueError "End-of-file reached before end of namelist.") σ
  | r => r

/-- `Parser.read` in patch mode on an in-memory stream: the patch argument
is already a `Namelist` (the model's caller supplies lower-cased keys, as
`Namelist(dict)` would produce), and the patch output is accumulated in the
state's `pfile`. -/
def readPatchF (cfg : PConfig) (fuel : Nat) (source : String) (patch : NML) :
    PRes NML :=
  match readstreamF cfg fuel (pySplitlines source) patch true with
  | .err .stopIteration σ =>
    .err (.valueError "End-of-file reached before end of namelist.") σ
  | r => r

/-! ## Python equality (`==`) on parsed values

`Namelist` equality is `OrderedDict.__eq__`: the ordered item pairs, values
compared by `==`; the `start_index` and cogroup attributes are *not*
compared.  Numbers compare across `bool`/`int`/`float`/`complex` by value
(exact here, as finite floats are exact rationals), and `nan` equals
nothing. -/

/-- Numeric projection of a value for Python cross-type `==`
(`bool ⊂ int ⊂ float ⊂ complex`). -/
def numProj : Value → Option (PyFloat × PyFloat)
  | .vint n => some (.finite n, .finite 0)
  | .vbool b => some (.finite (if b then 1 else 0), .finite 0)
  | .vreal f => some (f, .finite 0)
  | .vcomplex re im => some (re, im)
  | _ => none

/-- `==` on floats: `nan` is equal to nothing, infinities compare by sign,
finite values exactly. -/
def pyFloatEq : PyFloat → PyFloat → Bool
  | .finite a, .finite b => a == b
  | .inf a, .inf b => a == b
  | _, _ => false

mutual

/-- Python `==` between two parsed values. -/
def pyEqValue : Value → Value → Bool
  | .vstr a, .vstr b => a == b
  | .vnull, .vnull => true
  | .vlist a, .vlist b => pyEqValueList a b
  | .vnml e₁ _ _, .vnml e₂ _ _ => pyEqEntries e₁ e₂
  | a, b =>
    match numProj a, numProj b with
    | some (r₁, i₁), some (r₂, i₂) => pyFloatEq r₁ r₂ && pyFloatEq i₁ i₂
    | _, _ => false

/-- Python `==` between two lists, element-wise. -/
def pyEqValueList : List Value → List Value → Bool
  | [], [] => true
  | a :: as, b :: bs => pyEqValue a b && pyEqValueList as bs
  | _, _ => false

/-- `OrderedDict.__eq__` between two namelists (both operands are
`OrderedDict`s, so the comparison is order-sensitive). -/
def pyEqEntries : List (String × Value) → List (String × Value) → Bool
  | [], [] => true
  | (k₁, v₁) :: r₁, (k₂, v₂) :: r₂ => k₁ == k₂ && pyEqValue v₁ v₂ && pyEqEntries r₁ r₂
  | _, _ => false

end

/-- Python `==` between two namelists. -/
def pyEqNML (a b : NML) : Bool := pyEqEntries a.entries b.entries

/-- The successfully parsed namelist of a `reads` call, if any. -/
def readsResult (cfg : PConfig) (fuel : Nat) (s : String) : Option NML :=
  match readsF cfg fuel s with
  | .ok n _ => some n
  | .err _ _ => none

/-- Python `==` lifted to `readsResult` against an expected namelist:
`false` both on parse failure and on inequality. -/
def readsGives (cfg : PConfig) (fuel : Nat) (s : String) (expected : NML) :
    Bool :=
  match readsF cfg fuel s with
  | .ok n _ => pyEqNML n expected
  | .err _ _ => false

/-- The group-then-variable lookup `nml[g][v]` on a parse result. -/
def nmlLookup2 (n : NML) (g v : String) : Option Value :=
  match n.getOpt g with
  | some (.vnml e si cg) => NML.getOpt ⟨e, si, cg⟩ v
  | _ => none

/-- The `start_index` entry recorded for variable `v` in the namelist that
holds it, reached through group `g` and an optional derived-type path. -/
def startIndexOf (n : NML) (path : List String) (v : String) : Option (List (Option Int)) :=
  match path with
  | [] => alistGet n.startIndex v
  | g :: rest =>
    match n.getOpt g with
    | some (.vnml e si cg) => startIndexOf ⟨e, si, cg⟩ rest v
    | _ => none

/-- `readsGives` restricted to one variable of one group: Python `==`
between `parse(s)[g][v]` and the expected value (`false` also when parsing
fails or the variable is absent). -/
def readsVarGives (cfg : PConfig) (fuel : Nat) (s g v : String)
    (expected : Value) : Bool :=
  match (readsResult cfg fuel s).bind (fun n => nmlLookup2 n g v) with
  | some val => pyEqValue val expected
  | none => false

/-- The `start_index` list recorded for `v` on the group reached by `path`
from a parse result. -/
def readsStartIndex (cfg : PConfig) (fuel : Nat) (s : String)
    (path : List String) (v : String) : Option (List (Option Int)) :=
  (readsResult cfg fuel s).bind (fun n => startIndexOf n path v)

/-- Concatenation of a list of strings. -/
def strConcat : List String → String
  | [] => ""
  | s :: r => s ++ strConcat r

/-- The patch file text produced by a successful `read` in patch mode. -/
def patchFileOf (cfg : PConfig) (fuel : Nat) (src : String) (patch : NML) :
    Option String :=
  match readPatchF cfg fuel src patch with
  | .ok _ σ => σ.pfile
  | .err _ _ => none

/-! ## The claims -/

/-- **C3.** Parsing a group containing `v(3:5) = 3, 4, 5` followed by
`v = 1, 2` yields `v == [1, 2, 3, 4, 5]` when `default_start_index` is 1,
and `v == [1, 2, None, 3, 4, 5]` when it is 0: the indexed array is re-based
to the default start index, padded with nulls, and the new values are merged
element-wise.  (Both parses also record the re-based start index.) -/
theorem claim_C3 :
    readsVarGives { defaultStartIndex := 1 } 300
        "&idx_nml\n    v(3:5) = 3, 4, 5\n    v = 1, 2\n/\n" "idx_nml" "v"
        (.vlist [.vint 1, .vint 2, .vint 3, .vint 4, .vint 5]) = true ∧
    readsVarGives { defaultStartIndex := 0 } 300
        "&idx_nml\n    v(3:5) = 3, 4, 5\n    v = 1, 2\n/\n" "idx_nml" "v"
        (.vlist [.vint 1, .vint 2, .vnull, .vint 3, .vint 4, .vint 5]) = true := by
  decide!

/-- **C4, counterexample.** Parsing the spec's groups `x = 2.0, 2.0 /` and
`y = , , /` does *not* yield `y == [None, None, None]`: the two commas
produce exactly two nulls (the slot before the terminator is not a null), so
the claimed equality is false and `y == [None, None]` holds instead. -/
theorem claim_C4_counterexample :
    readsVarGives {} 300 "&a x = 2.0, 2.0 /\n&b y = , , /\n" "b" "y"
        (.vlist [.vnull, .vnull, .vnull]) = false ∧
    readsVarGives {} 300 "&a x = 2.0, 2.0 /\n&b y = , , /\n" "b" "y"
        (.vlist [.vnull, .vnull]) = true := by
  decide!

/-- **C4, amended.** A bare comma adjacent to `=`, `%`, or another comma
produces a null element, except that a comma immediately followed by a group
terminator does not itself produce a null; hence `x = 2.0, 2.0 / y = , , , /`
(three commas) yields `y == [None, None, None]`, while a trailing comma
after a value (`y = 1, /`) adds nothing and yields `y == 1`. -/
theorem claim_C4 :
    readsVarGives {} 300 "&a x = 2.0, 2.0 /\n&b y = , , , /\n" "b" "y"
        (.vlist [.vnull, .vnull, .vnull]) = true ∧
    readsVarGives {} 300 "&b y = 1, /\n" "b" "y" (.vint 1) = true := by
  decide!

/-- **C6, counterexample.** Parsing `a%b(2)%c = 2` with no prior assignment
to `a%b(1)` does *not* yield `a == {'b': [None, {'c': 2}]}`: the element is
stored at offset `2 - first = 0`, giving `a == {'b': [{'c': 2}]}` (exactly
what the repository's own `dtype_sparse_vec_nml` test expects). -/
theorem claim_C6_counterexample :
    readsVarGives {} 300 "&dtype_sparse_vec_nml\n    a%b(2)%c = 2\n/\n"
        "dtype_sparse_vec_nml" "a"
        (.vnml [("b", .vlist [.vnull, .vnml [("c", .vint 2)] [] []])] [] []) = false ∧
    readsVarGives {} 300 "&dtype_sparse_vec_nml\n    a%b(2)%c = 2\n/\n"
        "dtype_sparse_vec_nml" "a"
        (.vnml [("b", .vlist [.vnml [("c", .vint 2)] [] []])] [] []) = true := by
  decide!

/-- **C6, amended.** Parsing the single assignment `a%b(2)%c = 2` in a group
with no prior assignment to `a%b(1)` yields `a == {'b': [{'c': 2}]}` — the
single populated element sits at the offset relative to the inferred start
index, with no null padding below it — and `start_index['b'] == [2]` in the
namelist for `b`'s parent. -/
theorem claim_C6_amended :
    readsVarGives {} 300 "&dtype_sparse_vec_nml\n    a%b(2)%c = 2\n/\n"
        "dtype_sparse_vec_nml" "a"
        (.vnml [("b", .vlist [.vnml [("c", .vint 2)] [] []])] [] []) = true ∧
    readsStartIndex {} 300 "&dtype_sparse_vec_nml\n    a%b(2)%c = 2\n/\n"
        ["dtype_sparse_vec_nml", "a"] "b" = some [some 2] := by
  decide!

deriving instance DecidableEq for Except

/-- **C8.** The tokenizer does *not* cover every line: on
`"&g x = -inf 5 /\n"` the IEEE-token lookahead consumes the blank after
`-inf` without re-emitting it (`itertools.takewhile` swallows the failing
character), so the tokens — with the synthetic end-of-line token the reader
appends — concatenate to `"&g x = -inf5 /\n"`, one byte short of the input
line.  This contradicts the stated contract of the tokenizer. -/
theorem claim_C8_failing :
    lexLinesF 50 none .unset ["&g x = -inf 5 /\n"] =
      .ok ["&", "g", " ", "x", " ", "=", " ", "-inf", "5", " ", "/", "\n"] ∧
    String.join ["&", "g", " ", "x", " ", "=", " ", "-inf", "5", " ", "/", "\n"] =
      "&g x = -inf5 /\n" ∧
    "&g x = -inf5 /\n" ≠ "&g x = -inf 5 /\n" := by
  decide!

/-- Reading back the key just set returns the value (ordered-dict law). -/
theorem alistGet_alistSet_self {α : Type} (l : List (String × α)) (k : String)
    (v : α) : alistGet (alistSet l k v) k = some v := by
  induction l with
  | nil => simp [alistSet, alistGet]
  | cons hd tl ih =>
    by_cases hk : hd.1 = k
    · simp [alistSet, alistGet, hk]
    · simp [alistSet, alistGet, hk, ih]

/-- **C9.** For every `Namelist`, key strings that agree after lower-casing
are interchangeable in membership, lookup, deletion and assignment; the key
an assignment stores is exactly the lower-cased form, and (when the key does
not name a cogroup view) looking the value up again under any case variant
returns it. -/
theorem claim_C9 (n : NML) (k₁ k₂ : String) (v : Value)
    (h : pyLower k₁ = pyLower k₂) :
    n.contains k₁ = n.contains k₂ ∧
    n.get k₁ = n.get k₂ ∧
    n.del k₁ = n.del k₂ ∧
    n.set k₁ v = n.set k₂ v ∧
    (n.set k₁ v).entries = alistSet n.entries (pyLower k₁) v ∧
    (alistGet n.cogroups (pyLower k₁) = none →
      (n.set k₁ v).getOpt k₂ = some v) := by
  refine ⟨?_, ?_, ?_, ?_, ?_, ?_⟩
  · simp [NML.contains, h]
  · simp [NML.get, h]
  · simp [NML.del, h]
  · simp [NML.set, h]
  · rfl
  · intro hcg
    simp [NML.set, NML.getOpt, NML.get, ← h, hcg, alistGet_alistSet_self]

/-- Witness for C9 at a concrete namelist and a mixed-case key pair. -/
theorem claim_C9_witness :
    let n : NML := ⟨[("x", .vint 1)], [], []⟩
    n.contains "ABC" = n.contains "abc" ∧
    n.get "ABC" = n.get "abc" ∧
    n.del "ABC" = n.del "abc" ∧
    n.set "ABC" (.vint 2) = n.set "abc" (.vint 2) ∧
    (n.set "ABC" (.vint 2)).entries = alistSet n.entries (pyLower "ABC") (.vint 2) ∧
    (alistGet n.cogroups (pyLower "ABC") = none →
      (n.set "ABC" (.vint 2)).getOpt "abc" = some (.vint 2)) :=
  claim_C9 ⟨[("x", .vint 1)], [], []⟩ "ABC" "abc" (.vint 2) (by decide)

/-- The cursor advance is insensitive to replacing the outermost end bound
by `None` (the final rank always advances; inner ranks see an unchanged
prefix), given the rank alignment `FIndex.__init__` guarantees. -/
theorem findexAdvance_modEnd (cur : List Int) (e : List (Option Int))
    (s p : List Int) (hlen : cur.length = e.length) :
    findexAdvance cur (e.dropLast ++ [none]) s p = findexAdvance cur e s p := by
  induction cur generalizing e s p with
  | nil => cases e <;> cases s <;> cases p <;> simp [findexAdvance]
  | cons idx curRest ih =>
    match e, s, p with
    | [], _, _ => simp at hlen
    | e₀ :: eRest, [], _ => simp [findexAdvance]
    | e₀ :: eRest, s₀ :: sRest, [] => simp [findexAdvance]
    | e₀ :: eRest, s₀ :: sRest, p₀ :: pRest =>
      cases curRest with
      | nil =>
        have heRest : eRest = [] := by
          simpa using hlen.symm
        subst heRest
        simp [findexAdvance]
      | cons c₂ curRest₂ =>
        have heRest : eRest ≠ [] := by
          intro he
          rw [he] at hlen
          simp at hlen
        have hdrop : (e₀ :: eRest).dropLast ++ [(none : Option Int)] =
            e₀ :: (eRest.dropLast ++ [none]) := by
          cases eRest with
          | nil => exact absurd rfl heRest
          | cons x xs => simp
        rw [hdrop]
        have hlen' : (c₂ :: curRest₂).length = eRest.length := by
          simpa using hlen
        cases e₀ with
        | none => simp [findexAdvance]
        | some ev =>
          by_cases hcond : idx < ev - 1
          · simp [findexAdvance, hcond]
          · simp [findexAdvance, hcond, ih eRest sRest pRest hlen']

/-- The cursor advance preserves the rank count. -/
theorem findexAdvance_length (cur : List Int) (e : List (Option Int))
    (s p : List Int) : (findexAdvance cur e s p).length = cur.length := by
  induction cur generalizing e s p with
  | nil => cases e <;> cases s <;> cases p <;> simp [findexAdvance]
  | cons idx curRest ih =>
    match e, s, p with
    | [], _, _ => simp [findexAdvance]
    | e₀ :: eRest, [], _ => simp [findexAdvance]
    | e₀ :: eRest, s₀ :: sRest, [] => simp [findexAdvance]
    | e₀ :: eRest, s₀ :: sRest, p₀ :: pRest =>
      cases curRest with
      | nil => simp [findexAdvance]
      | cons c₂ curRest₂ =>
        cases e₀ with
        | none => simp [findexAdvance]
        | some ev =>
          by_cases hcond : idx < ev - 1
          · simp [findexAdvance, hcond]
          · simp [findexAdvance, hcond, ih eRest sRest pRest]

/-- The first `n` coordinate tuples `FIndex.__next__` yields, or `none` if a
`StopIteration` occurs within them. -/
def findexTraceVals : Nat → FIndex → Option (List (List Int))
  | 0, _ => some []
  | n + 1, f =>
    match f.next with
    | none => none
    | some (x, f') => (findexTraceVals n f').map (x :: ·)

/-- **C10.** When the outermost end bound is `0` (as parsing `v(-3:-1)`
stores, since the exclusive end is `1 + (-1) = 0`), iteration never raises
`StopIteration` — every prefix of the iteration succeeds — and the yielded
coordinates are exactly those of the same iterator with the end bound unset,
because the termination test checks the bound's truthiness rather than
whether it is `None`. -/
theorem claim_C10 (f : FIndex) (n : Nat)
    (hlast : f.endIdx.getLast? = some (some 0))
    (hlen : f.current.length = f.endIdx.length) :
    (findexTraceVals n f).isSome ∧
    findexTraceVals n f =
      findexTraceVals n { f with endIdx := f.endIdx.dropLast ++ [none] } := by
  induction n generalizing f with
  | zero => exact ⟨rfl, rfl⟩
  | succ m ih =>
    have hnext : f.next = some (f.current,
        { f with current := findexAdvance f.current f.endIdx f.start f.step }) := by
      simp [FIndex.next, List.getLastD_eq_getLast?, hlast, pyTruthyOptInt]
    have hnext' : ({ f with endIdx := f.endIdx.dropLast ++ [none] } : FIndex).next =
        some (f.current,
          { f with endIdx := f.endIdx.dropLast ++ [none],
                   current := findexAdvance f.current f.endIdx f.start f.step }) := by
      simp [FIndex.next, List.getLastD_eq_getLast?, pyTruthyOptInt,
        findexAdvance_modEnd f.current f.endIdx f.start f.step hlen]
    have ihf := ih { f with current := findexAdvance f.current f.endIdx f.start f.step }
      hlast (by simpa [findexAdvance_length] using hlen)
    constructor
    · simp only [findexTraceVals, hnext]
      rcases Option.isSome_iff_exists.mp ihf.1 with ⟨tr, htr⟩
      simp [htr]
    · simp only [findexTraceVals, hnext, hnext']
      rw [ihf.2]

/-- Witness for C10 at the iterator parsing `v(-3:-1)` constructs, for five
iterations. -/
theorem claim_C10_witness :
    (findexTraceVals 5 (FIndex.init [(some (-3), some 0, none)] none)).isSome ∧
    findexTraceVals 5 (FIndex.init [(some (-3), some 0, none)] none) =
      findexTraceVals 5 { FIndex.init [(some (-3), some 0, none)] none with
        endIdx := (FIndex.init [(some (-3), some 0, none)] none).endIdx.dropLast
          ++ [none] } :=
  claim_C10 (FIndex.init [(some (-3), some 0, none)] none) 5 (by decide) (by decide)

/-- `_update_tokens` outside patch mode, on a stream whose next token is not
padding: it becomes the lookahead token and the prior token is retired. -/
theorem updateTokens_plain (cfg : PConfig) (f : Nat) (σ : PState)
    (t : String) (rest : List String) (htok : σ.tokens = t :: rest)
    (hpf : σ.pfile = none) (hws : inCommentOrWs cfg (tokHead t) = false) :
    updateTokensF cfg (f + 1) σ =
      .ok () { σ with tokens := rest, token := t, priorToken := σ.token } := by
  simp [updateTokensF, htok, hpf, wsSkipLoop, hws, PState.pwrite]

/-- A token `int()` accepts starts with a sign or a digit. -/
theorem pyint_some_head (s : String) (n : Int) (h : pyint s = some n) :
    ∃ c r, s.data = c :: r ∧ (c = '-' ∨ c = '+' ∨ pyIsDigit c = true) := by
  unfold pyint at h
  match hs : s.data with
  | [] => rw [hs] at h; simp at h
  | c :: r =>
    rw [hs] at h
    refine ⟨c, r, rfl, ?_⟩
    by_cases hc₁ : c = '-'
    · exact Or.inl hc₁
    · by_cases hc₂ : c = '+'
      · exact Or.inr (Or.inl hc₂)
      · simp [hc₁, hc₂] at h
        rcases h with ⟨hall, -⟩
        exact Or.inr (Or.inr (by simpa using hall.1))

/-- A digit is neither the default comment token nor whitespace. -/
theorem digit_not_commentOrWs (cfg : PConfig) (hc : cfg.commentTokens = "!")
    (c : Char) (h : pyIsDigit c = true) : inCommentOrWs cfg c = false := by
  have hne : c ≠ '!' ∧ c ≠ ' ' ∧ c ≠ '\t' ∧ c ≠ '\n' ∧ c ≠ '\x0d' ∧
      c ≠ '\x0b' ∧ c ≠ '\x0c' := by
    refine ⟨?_, ?_, ?_, ?_, ?_, ?_, ?_⟩ <;>
      (intro hce; subst hce; exact absurd h (by decide))
  simp [inCommentOrWs, hc, pyCharIn, pyIsSpaceChar, pyWhitespace,
    List.contains, hne.1, hne.2.1, hne.2.2.1, hne.2.2.2.1, hne.2.2.2.2.1,
    hne.2.2.2.2.2.1, hne.2.2.2.2.2.2]

/-- A token `int()` accepts is not padding under the default comment
token. -/
theorem pyint_not_commentOrWs (cfg : PConfig) (hc : cfg.commentTokens = "!")
    (s : String) (n : Int) (h : pyint s = some n) :
    inCommentOrWs cfg (tokHead s) = false := by
  rcases pyint_some_head s n h with ⟨c, r, hd, hcases⟩
  have hth : tokHead s = c := by simp [tokHead, hd]
  rw [hth]
  rcases hcases with hm | hp | hdig
  · subst hm; simp [inCommentOrWs, hc, pyCharIn, pyIsSpaceChar, pyWhitespace]
  · subst hp; simp [inCommentOrWs, hc, pyCharIn, pyIsSpaceChar, pyWhitespace]
  · exact digit_not_commentOrWs cfg hc c hdig

/-- **C7.** When parsing an index specification: an empty index element (a
bare `,` or `)` where a start index was expected) raises a syntax error
naming the variable; a stride of `0` raises a syntax error naming the
variable; an index not terminated by `,` or `)` raises a syntax error naming
the variable; and `_parse_indices` propagates each such error to its caller
unchanged, never recovering silently. -/
theorem claim_C7 :
    (∀ (cfg : PConfig) (f : Nat) (σ : PState) (vName t : String)
      (rest : List String), σ.tokens = t :: rest → σ.pfile = none →
      cfg.commentTokens = "!" → (t = "," ∨ t = ")") →
      parseIndexF cfg (f + 1) σ vName =
        .err (.valueError (vName ++ " index cannot be empty."))
          { σ with tokens := rest, token := t, priorToken := σ.token }) ∧
    (∀ (cfg : PConfig) (f : Nat) (σ : PState) (vName s₁ s₂ : String)
      (a b : Int) (rest : List String),
      σ.tokens = [s₁, ":", s₂, ":", "0"] ++ rest → σ.pfile = none →
      cfg.commentTokens = "!" → pyint s₁ = some a → pyint s₂ = some b →
      parseIndexF cfg (f + 1) σ vName =
        .err (.valueError (vName ++ " stride index cannot be zero."))
          { σ with tokens := rest, token := "0", priorToken := ":" }) ∧
    (∀ (cfg : PConfig) (f : Nat) (σ : PState) (vName s₁ t : String)
      (a : Int) (rest : List String),
      σ.tokens = [s₁, t] ++ rest → σ.pfile = none →
      cfg.commentTokens = "!" → pyint s₁ = some a →
      inCommentOrWs cfg (tokHead t) = false →
      t ≠ ":" → t ≠ "," → t ≠ ")" →
      parseIndexF cfg (f + 1) σ vName =
        .err (.valueError (vName ++ " index did not terminate correctly."))
          { σ with tokens := rest, token := t, priorToken := s₁ }) ∧
    (∀ (cfg : PConfig) (f : Nat) (σ σ' : PState) (vName : String)
      (acc : List (Option Int × Option Int × Option Int)) (e : PErr),
      (σ.token = "," ∨ σ.token = "(") →
      parseIndexF cfg f σ vName = .err e σ' →
      parseIndicesF cfg (f + 1) σ vName acc = .err e σ') := by
  refine ⟨?_, ?_, ?_, ?_⟩
  · intro cfg f σ vName t rest htok hpf hc ht
    have hws : inCommentOrWs cfg (tokHead t) = false := by
      rcases ht with h | h <;> subst h <;>
        simp [inCommentOrWs, hc, tokHead, pyCharIn, pyIsSpaceChar,
          pyWhitespace, List.contains]
    rw [parseIndexF, updateTokens_plain cfg f σ t rest htok hpf hws]
    rcases ht with h | h <;> subst h <;>
      · have hpy : pyint "," = none ∨ pyint ")" = none := by decide
        simp [PRes.bind, show pyint "," = none by decide,
          show pyint ")" = none by decide]
  · intro cfg f σ vName s₁ s₂ a b rest htok hpf hc h₁ h₂
    have hws₁ := pyint_not_commentOrWs cfg hc s₁ a h₁
    have hws₂ := pyint_not_commentOrWs cfg hc s₂ b h₂
    have hwsC : inCommentOrWs cfg (tokHead ":") = false := by
      simp [inCommentOrWs, hc, tokHead, pyCharIn, pyIsSpaceChar,
        pyWhitespace, List.contains]
    have hws0 : inCommentOrWs cfg (tokHead "0") = false := by
      simp [inCommentOrWs, hc, tokHead, pyCharIn, pyIsSpaceChar,
        pyWhitespace, List.contains]
    simp [parseIndexF, updateTokensF, wsSkipLoop, PRes.bind, PState.pwrite,
      htok, hpf, hws₁, hws₂, hwsC, hws0, h₁, h₂,
      show pyint ":" = none by decide, show pyint "0" = some 0 by decide]
  · intro cfg f σ vName s₁ t a rest htok hpf hc h₁ hws ht₁ ht₂ ht₃
    have hws₁ := pyint_not_commentOrWs cfg hc s₁ a h₁
    simp [parseIndexF, updateTokensF, wsSkipLoop, PRes.bind, PState.pwrite,
      htok, hpf, hws₁, hws, h₁, ht₁, ht₂, ht₃]
  · intro cfg f σ σ' vName acc e hcomma herr
    rw [parseIndicesF]
    rcases hcomma with h | h <;> simp [h, herr, PRes.bind]

/-- Witness for C7 at concrete error streams (`v(,`, `v(1:5:0)`, `v(1=`,
and the propagation through `_parse_indices` of the first). -/
theorem claim_C7_witness :
    (parseIndexF {} 5 ⟨[",", ")"], "(", "v", none⟩ "v" =
      .err (.valueError ("v" ++ " index cannot be empty."))
        { (⟨[",", ")"], "(", "v", none⟩ : PState) with
          tokens := [")"], token := ",", priorToken := "(" }) ∧
    (parseIndexF {} 5 ⟨["1", ":", "5", ":", "0", ")"], "(", "v", none⟩ "v" =
      .err (.valueError ("v" ++ " stride index cannot be zero."))
        { (⟨["1", ":", "5", ":", "0", ")"], "(", "v", none⟩ : PState) with
          tokens := [")"], token := "0", priorToken := ":" }) ∧
    (parseIndexF {} 5 ⟨["1", "=", "2"], "(", "v", none⟩ "v" =
      .err (.valueError ("v" ++ " index did not terminate correctly."))
        { (⟨["1", "=", "2"], "(", "v", none⟩ : PState) with
          tokens := ["2"], token := "=", priorToken := "1" }) ∧
    (parseIndicesF {} 6 ⟨[",", ")"], "(", "v", none⟩ "v" [] =
      .err (.valueError ("v" ++ " index cannot be empty."))
        { (⟨[",", ")"], "(", "v", none⟩ : PState) with
          tokens := [")"], token := ",", priorToken := "(" }) := by
  refine ⟨?_, ?_, ?_, ?_⟩
  · exact claim_C7.1 {} 4 _ "v" "," [")"] rfl rfl rfl (Or.inl rfl)
  · exact claim_C7.2.1 {} 4 _ "v" "1" "5" 1 5 [")"] rfl rfl rfl (by decide) (by decide)
  · exact claim_C7.2.2.1 {} 4 _ "v" "1" "=" 1 ["2"] rfl rfl rfl (by decide)
      (by decide) (by decide) (by decide) (by decide)
  · exact claim_C7.2.2.2 {} 5 _ _ "v" [] _ (Or.inr rfl)
      (claim_C7.1 {} 4 _ "v" "," [")"] rfl rfl rfl (Or.inl rfl))

/-- **C5, counterexample.** At a position where both sides hold mappings,
`merge_lists` recurses (`merge_dicts`) instead of taking the non-null
new-side element: merging `[{'a': 1}]` with `[{'b': 2}]` yields
`[{'a': 1, 'b': 2}]`, which differs (also under Python `==`) from the
new-side element `{'b': 2}` the claim requires. -/
theorem claim_C5_counterexample :
    mergeListsF 3 [.vnml [("a", .vint 1)] [] []] [.vnml [("b", .vint 2)] [] []] =
      [.vnml [("a", .vint 1), ("b", .vint 2)] [] []] ∧
    pyEqValue (.vnml [("a", .vint 1), ("b", .vint 2)] [] [])
      (.vnml [("b", .vint 2)] [] []) = false := by
  constructor
  · simp [mergeListsF, mergeDictsF, mergeValuesF, Value.ofNML, NML.contains,
      NML.set, NML.getOpt, NML.get, alistGet, alistSet, pyLower]
  · decide

/-- The result of `merge_lists` at adequate fuel, exposed position-wise. -/
theorem mergeListsF_succ (fuel : Nat) (src new : List Value) :
    mergeListsF (fuel + 1) src new =
      ((new ++ List.replicate (max src.length new.length - new.length)
          Value.vnull).zip
        (src ++ List.replicate (max src.length new.length - src.length)
          Value.vnull)).map fun (val, sval) =>
        match val, sval with
        | .vnml e₂ s₂ c₂, .vnml e₁ s₁ c₁ =>
          Value.ofNML (mergeDictsF fuel ⟨e₁, s₁, c₁⟩ ⟨e₂, s₂, c₂⟩)
        | .vlist l₂, .vlist l₁ => .vlist (mergeListsF fuel l₁ l₂)
        | .vnull, _ => sval
        | _, _ => val := rfl

/-- **C5, amended.** For every pair of value lists merged by `merge_lists`:
the shorter side is extended with nulls to the longer side's length; at every
position the result is the new-side element when it is non-null — except
that a pair of mappings or a pair of sequences merges recursively — and the
src-side element when the new-side element is null; hence a non-null src
element is never overwritten by a null new element. -/
theorem claim_C5 (fuel : Nat) (src new : List Value) (i : Nat)
    (hi : i < max src.length new.length) :
    (mergeListsF (fuel + 1) src new).length = max src.length new.length ∧
    (((new ++ List.replicate (max src.length new.length - new.length)
        Value.vnull).getD i .vnull = .vnull →
      (mergeListsF (fuel + 1) src new).getD i .vnull =
        (src ++ List.replicate (max src.length new.length - src.length)
          Value.vnull).getD i .vnull)) ∧
    (((new ++ List.replicate (max src.length new.length - new.length)
        Value.vnull).getD i .vnull ≠ .vnull →
      ¬((∃ e₂ s₂ c₂ e₁ s₁ c₁,
          (new ++ List.replicate (max src.length new.length - new.length)
            Value.vnull).getD i .vnull = .vnml e₂ s₂ c₂ ∧
          (src ++ List.replicate (max src.length new.length - src.length)
            Value.vnull).getD i .vnull = .vnml e₁ s₁ c₁) ∨
        (∃ l₂ l₁,
          (new ++ List.replicate (max src.length new.length - new.length)
            Value.vnull).getD i .vnull = .vlist l₂ ∧
          (src ++ List.replicate (max src.length new.length - src.length)
            Value.vnull).getD i .vnull = .vlist l₁)) →
      (mergeListsF (fuel + 1) src new).getD i .vnull =
        (new ++ List.replicate (max src.length new.length - new.length)
          Value.vnull).getD i .vnull)) ∧
    ((src ++ List.replicate (max src.length new.length - src.length)
        Value.vnull).getD i .vnull ≠ .vnull →
      (mergeListsF (fuel + 1) src new).getD i .vnull ≠ .vnull) := by
  have hlenN : (new ++ List.replicate (max src.length new.length - new.length)
      Value.vnull).length = max src.length new.length := by
    simp only [List.length_append, List.length_replicate]
    omega
  have hlenS : (src ++ List.replicate (max src.length new.length - src.length)
      Value.vnull).length = max src.length new.length := by
    simp only [List.length_append, List.length_replicate]
    omega
  have hiN : i < (new ++ List.replicate
      (max src.length new.length - new.length) Value.vnull).length := by
    rw [hlenN]; exact hi
  have hiS : i < (src ++ List.replicate
      (max src.length new.length - src.length) Value.vnull).length := by
    rw [hlenS]; exact hi
  have hrlen : (mergeListsF (fuel + 1) src new).length =
      max src.length new.length := by
    rw [mergeListsF_succ]
    simp [hlenN, hlenS]
  have hzlen : i < (((new ++ List.replicate
      (max src.length new.length - new.length) Value.vnull)).zip
      ((src ++ List.replicate (max src.length new.length - src.length)
        Value.vnull))).length := by
    simp [List.length_zip, hlenN, hlenS, hi]
  have hzip : (((new ++ List.replicate
      (max src.length new.length - new.length) Value.vnull)).zip
      ((src ++ List.replicate (max src.length new.length - src.length)
        Value.vnull)))[i]? =
      some ((new ++ List.replicate (max src.length new.length - new.length)
          Value.vnull).getD i .vnull,
        (src ++ List.replicate (max src.length new.length - src.length)
          Value.vnull).getD i .vnull) := by
    rw [List.getElem?_eq_getElem hzlen]
    simp [List.getElem_zip, List.getD_eq_getElem?_getD,
      List.getElem?_eq_getElem hiN, List.getElem?_eq_getElem hiS]
  refine ⟨hrlen, ?_, ?_, ?_⟩
  · intro hnull
    cases hvS : (src ++ List.replicate
        (max src.length new.length - src.length) Value.vnull).getD i .vnull <;>
      (rw [List.getD_eq_getElem?_getD, mergeListsF_succ, List.getElem?_map,
        hzip, hnull, hvS] <;> rfl)
  · intro hnn hnotrec
    cases hvN : (new ++ List.replicate
        (max src.length new.length - new.length) Value.vnull).getD i .vnull <;>
      cases hvS : (src ++ List.replicate
        (max src.length new.length - src.length) Value.vnull).getD i .vnull
    all_goals try exact absurd hvN hnn
    all_goals try
      (rw [List.getD_eq_getElem?_getD, mergeListsF_succ, List.getElem?_map,
        hzip, hvN, hvS] <;> rfl)
    · exact absurd (Or.inr ⟨_, _, hvN, hvS⟩) hnotrec
    · exact absurd (Or.inl ⟨_, _, _, _, _, _, hvN, hvS⟩) hnotrec
  · intro hsn
    cases hvN : (new ++ List.replicate
        (max src.length new.length - new.length) Value.vnull).getD i .vnull <;>
      cases hvS : (src ++ List.replicate
        (max src.length new.length - src.length) Value.vnull).getD i .vnull
    all_goals try exact absurd hvS hsn
    all_goals
      (rw [List.getD_eq_getElem?_getD, mergeListsF_succ, List.getElem?_map,
        hzip, hvN, hvS] <;> exact fun hc => Value.noConfusion hc)

/-- Witness for C5 at `src = [1, None]`, `new = [None]`, position 0. -/
theorem claim_C5_witness :
    (mergeListsF (2 + 1) [Value.vint 1, Value.vnull] [Value.vnull]).length =
      max [Value.vint 1, Value.vnull].length [Value.vnull].length ∧
    ((([Value.vnull] ++ List.replicate
        (max [Value.vint 1, Value.vnull].length [Value.vnull].length -
          [Value.vnull].length) Value.vnull).getD 0 .vnull = .vnull →
      (mergeListsF (2 + 1) [Value.vint 1, Value.vnull] [Value.vnull]).getD 0
          .vnull =
        ([Value.vint 1, Value.vnull] ++ List.replicate
          (max [Value.vint 1, Value.vnull].length [Value.vnull].length -
            [Value.vint 1, Value.vnull].length) Value.vnull).getD 0 .vnull)) ∧
    ((([Value.vnull] ++ List.replicate
        (max [Value.vint 1, Value.vnull].length [Value.vnull].length -
          [Value.vnull].length) Value.vnull).getD 0 .vnull ≠ .vnull →
      ¬((∃ e₂ s₂ c₂ e₁ s₁ c₁,
          ([Value.vnull] ++ List.replicate
            (max [Value.vint 1, Value.vnull].length [Value.vnull].length -
              [Value.vnull].length) Value.vnull).getD 0 .vnull =
            .vnml e₂ s₂ c₂ ∧
          ([Value.vint 1, Value.vnull] ++ List.replicate
            (max [Value.vint 1, Value.vnull].length [Value.vnull].length -
              [Value.vint 1, Value.vnull].length) Value.vnull).getD 0 .vnull =
            .vnml e₁ s₁ c₁) ∨
        (∃ l₂ l₁,
          ([Value.vnull] ++ List.replicate
            (max [Value.vint 1, Value.vnull].length [Value.vnull].length -
              [Value.vnull].length) Value.vnull).getD 0 .vnull = .vlist l₂ ∧
          ([Value.vint 1, Value.vnull] ++ List.replicate
            (max [Value.vint 1, Value.vnull].length [Value.vnull].length -
              [Value.vint 1, Value.vnull].length) Value.vnull).getD 0 .vnull =
            .vlist l₁)) →
      (mergeListsF (2 + 1) [Value.vint 1, Value.vnull] [Value.vnull]).getD 0
          .vnull =
        ([Value.vnull] ++ List.replicate
          (max [Value.vint 1, Value.vnull].length [Value.vnull].length -
            [Value.vnull].length) Value.vnull).getD 0 .vnull)) ∧
    (([Value.vint 1, Value.vnull] ++ List.replicate
        (max [Value.vint 1, Value.vnull].length [Value.vnull].length -
          [Value.vint 1, Value.vnull].length) Value.vnull).getD 0 .vnull ≠
        .vnull →
      (mergeListsF (2 + 1) [Value.vint 1, Value.vnull] [Value.vnull]).getD 0
        .vnull ≠ .vnull) :=
  claim_C5 2 [Value.vint 1, Value.vnull] [Value.vnull] 0 (by decide)

theorem strConcat_append (a b : List String) :
    strConcat (a ++ b) = strConcat a ++ strConcat b := by
  induction a with
  | nil => simp [strConcat]
  | cons s r ih => simp [strConcat, ih, String.append_assoc]

/-- `commentCopy` consumes a prefix of its stream up to a newline token and
appends the consumed tokens, in order and unmodified, to the accumulator. -/
theorem commentCopy_spec (rest : List String) :
    ∀ (pt nt pt₂ nt₂ : String) (rest₂ : List String),
    commentCopy rest pt nt = some (pt₂, nt₂, rest₂) →
    ∃ mid, nt :: rest = mid ++ nt₂ :: rest₂ ∧ pt₂ = pt ++ strConcat mid := by
  induction rest with
  | nil =>
    intro pt nt pt₂ nt₂ rest₂ h
    rw [commentCopy] at h
    by_cases hn : nt = "\n"
    · rw [if_pos hn] at h
      simp only [Option.some.injEq, Prod.mk.injEq] at h
      obtain ⟨h1, h2, h3⟩ := h
      exact ⟨[], by simp [h2, ← h3], by rw [← h1, strConcat, String.append_empty]⟩
    · rw [if_neg hn] at h
      simp at h
  | cons t r ih =>
    intro pt nt pt₂ nt₂ rest₂ h
    rw [commentCopy] at h
    by_cases hn : nt = "\n"
    · rw [if_pos hn] at h
      simp only [Option.some.injEq, Prod.mk.injEq] at h
      obtain ⟨h1, h2, h3⟩ := h
      exact ⟨[], by simp [h2, ← h3], by rw [← h1, strConcat, String.append_empty]⟩
    · rw [if_neg hn] at h
      obtain ⟨mid, hstream, hpt⟩ := ih (pt ++ nt) t pt₂ nt₂ rest₂ h
      refine ⟨nt :: mid, ?_, ?_⟩
      · rw [List.cons_append, ← hstream]
      · rw [hpt, strConcat, String.append_assoc]

/-- The skipping loop of `_update_tokens` consumes a prefix of padding
tokens and, in patch mode with no pending substitution skip, writes the
pending value followed by every consumed token byte-for-byte, in order. -/
theorem wsSkipLoop_frame (cfg : PConfig) (fuel : Nat) :
    ∀ (σ σ' : PState) (nextTok pv pt out : String),
    σ.pfile = some out →
    wsSkipLoop cfg fuel σ nextTok pv pt false = .ok () σ' →
    ∃ skipped t rest,
      nextTok :: σ.tokens = skipped ++ t :: rest ∧
      σ'.tokens = rest ∧ σ'.token = t ∧ σ'.priorToken = σ.token ∧
      σ'.pfile = some (out ++ pv ++ pt ++ strConcat skipped) := by
  induction fuel with
  | zero =>
    intro σ σ' nextTok pv pt out hpf h
    rw [wsSkipLoop] at h
    exact PRes.noConfusion h
  | succ f ih =>
    intro σ σ' nextTok pv pt out hpf h
    rw [wsSkipLoop] at h
    by_cases hw : inCommentOrWs cfg (tokHead nextTok)
    · rw [if_pos hw] at h
      have hmid : ∀ pt₂ nt₂ rest₂,
          (if σ.pfile.isSome ∧ pyCharIn (tokHead nextTok) cfg.commentTokens then
            commentCopy σ.tokens pt nextTok
          else some (pt, nextTok, σ.tokens)) = some (pt₂, nt₂, rest₂) →
          ∃ mid, nextTok :: σ.tokens = mid ++ nt₂ :: rest₂ ∧
            pt₂ = pt ++ strConcat mid := by
        intro pt₂ nt₂ rest₂ hcc
        by_cases hcase : σ.pfile.isSome ∧ pyCharIn (tokHead nextTok) cfg.commentTokens
        · rw [if_pos hcase] at hcc
          exact commentCopy_spec σ.tokens pt nextTok pt₂ nt₂ rest₂ hcc
        · rw [if_neg hcase] at hcc
          simp only [Option.some.injEq, Prod.mk.injEq] at hcc
          obtain ⟨h1, h2, h3⟩ := hcc
          exact ⟨[], by simp [h2, ← h3], by rw [← h1, strConcat, String.append_empty]⟩
      cases hcc : (if σ.pfile.isSome ∧ pyCharIn (tokHead nextTok) cfg.commentTokens then
          commentCopy σ.tokens pt nextTok
        else some (pt, nextTok, σ.tokens)) with
      | none =>
        rw [hcc] at h
        exact PRes.noConfusion h
      | some trip =>
        obtain ⟨pt₂, nt₂, rest₂⟩ := trip
        rw [hcc] at h
        obtain ⟨mid, hstream, hpt₂⟩ := hmid pt₂ nt₂ rest₂ hcc
        have hsome : σ.pfile.isSome = true := by rw [hpf]; rfl
        cases rest₂ with
        | nil =>
          simp only [hsome, eq_self_iff_true, if_true] at h
          exact PRes.noConfusion h
        | cons t r =>
          simp only [hsome, eq_self_iff_true, if_true] at h
          obtain ⟨sk, t', rest', hstream', htoks, htok, hprior, hpfile⟩ :=
            ih { σ with tokens := r } σ' t pv (pt₂ ++ nt₂) out hpf h
          refine ⟨mid ++ nt₂ :: sk, t', rest', ?_, htoks, htok, hprior, ?_⟩
          · rw [hstream]
            simp only at hstream'
            rw [hstream']
            simp [List.append_assoc]
          · rw [hpfile, hpt₂, strConcat_append, strConcat]
            simp [String.append_assoc]
    · rw [if_neg hw] at h
      simp only [Bool.false_eq_true, not_false_eq_true, true_or, if_true] at h
      injection h with h1 h2
      subst h2
      refine ⟨[], nextTok, σ.tokens, rfl, ?_, ?_, ?_, ?_⟩ <;>
        simp [PState.pwrite, hpf, strConcat, String.append_assoc,
          String.append_empty]

/-- `_update_tokens` in patch mode with no override: on success the retired
token is written byte-for-byte, followed by every skipped padding token
byte-for-byte, in input order. -/
theorem updateTokens_frame (cfg : PConfig) (fuel : Nat) (σ σ' : PState)
    (out : String) (hpf : σ.pfile = some out)
    (h : updateTokensF cfg fuel σ = .ok () σ') :
    ∃ skipped t rest,
      σ.tokens = skipped ++ t :: rest ∧
      σ'.tokens = rest ∧ σ'.token = t ∧ σ'.priorToken = σ.token ∧
      σ'.pfile = some (out ++ σ.token ++ strConcat skipped) := by
  rw [updateTokensF] at h
  cases htk : σ.tokens with
  | nil => rw [htk] at h; exact PRes.noConfusion h
  | cons nextTok rest₀ =>
    rw [htk] at h
    have hsome : σ.pfile.isSome = true := by rw [hpf]; rfl
    rw [if_pos ⟨hsome, rfl⟩] at h
    obtain ⟨sk, t, rest, hstream, htoks, htok, hprior, hpfile⟩ :=
      wsSkipLoop_frame cfg fuel { σ with tokens := rest₀ } σ' nextTok σ.token
        "" out hpf h
    refine ⟨sk, t, rest, ?_, htoks, htok, hprior, ?_⟩
    · simpa using hstream
    · rw [hpfile]
      simp [String.append_empty, String.append_assoc]

/-- **C2.** In patch mode, every token retired by a non-substituting
`_update_tokens` call is written to the patch output byte-for-byte, followed
by every skipped whitespace or comment token byte-for-byte, in input order;
consequently patching the single scalar `x` in a file with a header comment
and a trailing comment reproduces every byte outside the substituted token
(`1` becomes `5`) unchanged. -/
theorem claim_C2 :
    (∀ (cfg : PConfig) (fuel : Nat) (σ σ' : PState) (out : String),
      σ.pfile = some out →
      updateTokensF cfg fuel σ = .ok () σ' →
      ∃ skipped t rest,
        σ.tokens = skipped ++ t :: rest ∧
        σ'.tokens = rest ∧ σ'.token = t ∧ σ'.priorToken = σ.token ∧
        σ'.pfile = some (out ++ σ.token ++ strConcat skipped)) ∧
    patchFileOf {} 300 "! header\n&g\n x = 1  ! trailing\n y = 2\n/\n"
        ⟨[("g", .vnml [("x", .vint 5)] [] [])], [], []⟩ =
      some "! header\n&g\n x = 5  ! trailing\n y = 2\n/\n" :=
  ⟨fun cfg fuel σ σ' out hpf h => updateTokens_frame cfg fuel σ σ' out hpf h,
   by decide!⟩

/-- Witness for the frame half of C2: advancing over `[" ", "x"]` from
retired token `&` writes `&` and the skipped blank to the patch output. -/
theorem claim_C2_witness :
    ∃ skipped t rest,
      (PState.mk [" ", "x"] "&" "" (some "P")).tokens = skipped ++ t :: rest ∧
      (PState.mk [] "x" "&" (some "P& ")).tokens = rest ∧
      (PState.mk [] "x" "&" (some "P& ")).token = t ∧
      (PState.mk [] "x" "&" (some "P& ")).priorToken =
        (PState.mk [" ", "x"] "&" "" (some "P")).token ∧
      (PState.mk [] "x" "&" (some "P& ")).pfile =
        some ("P" ++ (PState.mk [" ", "x"] "&" "" (some "P")).token ++
          strConcat skipped) :=
  claim_C2.1 {} 5 (PState.mk [" ", "x"] "&" "" (some "P"))
    (PState.mk [] "x" "&" (some "P& ")) "P" rfl rfl


/-! ## `str(int)`: the decimal rendering of core `Nat.repr` / `Int.repr` -/

theorem tdc_append (f : Nat) : ∀ (n : Nat) (acc : List Char),
    Nat.toDigitsCore 10 f n acc = Nat.toDigitsCore 10 f n [] ++ acc := by
  induction f with
  | zero => intro n acc; simp [Nat.toDigitsCore]
  | succ f ih =>
    intro n acc
    rw [Nat.toDigitsCore, Nat.toDigitsCore]
    by_cases h : n / 10 = 0
    · simp [h]
    · simp only [h, if_false]
      rw [ih (n / 10) [Nat.digitChar (n % 10)],
        ih (n / 10) (Nat.digitChar (n % 10) :: acc), List.append_assoc]
      rfl

theorem digitChar_isDigit (d : Nat) (h : d < 10) :
    pyIsDigit (Nat.digitChar d) = true := by
  interval_cases d <;> decide

theorem digitChar_val (d : Nat) (h : d < 10) :
    (Nat.digitChar d).toNat - '0'.toNat = d := by
  interval_cases d <;> decide

theorem tdc_all_digits (f : Nat) : ∀ (n : Nat),
    ∀ c ∈ Nat.toDigitsCore 10 f n [], pyIsDigit c = true := by
  induction f with
  | zero => intro n c hc; simp [Nat.toDigitsCore] at hc
  | succ f ih =>
    intro n c hc
    rw [Nat.toDigitsCore] at hc
    have hd : pyIsDigit (Nat.digitChar (n % 10)) = true :=
      digitChar_isDigit _ (Nat.mod_lt _ (by norm_num))
    by_cases h : n / 10 = 0
    · simp [h] at hc
      rw [hc]; exact hd
    · simp only [h, if_false] at hc
      rw [tdc_append] at hc
      rcases List.mem_append.mp hc with h₁ | h₂
      · exact ih (n / 10) c h₁
      · simp at h₂; rw [h₂]; exact hd

theorem tdc_ne_nil (f n : Nat) (hf : 0 < f) :
    Nat.toDigitsCore 10 f n [] ≠ [] := by
  match f, hf with
  | f + 1, _ =>
    rw [Nat.toDigitsCore]
    by_cases h : n / 10 = 0
    · simp [h]
    · simp only [h, if_false]
      rw [tdc_append]
      simp

theorem digitsToNat_append_one (xs : List Char) (c : Char) :
    digitsToNat (xs ++ [c]) =
      10 * digitsToNat xs + (c.toNat - '0'.toNat) := by
  simp [digitsToNat, List.foldl_append]

theorem tdc_val (f : Nat) : ∀ (n : Nat), n < f →
    digitsToNat (Nat.toDigitsCore 10 f n []) = n := by
  induction f with
  | zero => intro n h; omega
  | succ f ih =>
    intro n h
    rw [Nat.toDigitsCore]
    by_cases h0 : n / 10 = 0
    · have hn : n < 10 := by omega
      have hdv := digitChar_val n hn
      simp only [h0, if_pos rfl, digitsToNat, List.foldl, Nat.mod_eq_of_lt hn]
      simpa using hdv
    · simp only [h0, if_false]
      rw [tdc_append, digitsToNat_append_one,
        ih (n / 10) (by omega),
        digitChar_val (n % 10) (Nat.mod_lt _ (by norm_num))]
      omega

theorem natRepr_data (m : Nat) :
    (Nat.repr m).data = Nat.toDigitsCore 10 (m + 1) m [] := rfl

theorem natRepr_ne_nil (m : Nat) : (Nat.repr m).data ≠ [] := by
  rw [natRepr_data]; exact tdc_ne_nil _ _ (Nat.succ_pos m)

theorem natRepr_all_digits (m : Nat) :
    ∀ c ∈ (Nat.repr m).data, pyIsDigit c = true := by
  rw [natRepr_data]; exact tdc_all_digits _ m

theorem natRepr_val (m : Nat) : digitsToNat (Nat.repr m).data = m := by
  rw [natRepr_data]; exact tdc_val _ m (Nat.lt_succ_self m)

theorem pyIsDigit_ne_signs (c : Char) (h : pyIsDigit c = true) :
    c ≠ '-' ∧ c ≠ '+' := by
  constructor <;> (intro hc; subst hc; exact absurd h (by decide))

theorem pyint_natRepr (m : Nat) : pyint (Nat.repr m) = some (m : Int) := by
  match hd : (Nat.repr m).data with
  | [] => exact absurd hd (natRepr_ne_nil m)
  | c :: rest =>
    have hall : ∀ x ∈ c :: rest, pyIsDigit x = true := by
      rw [← hd]; exact natRepr_all_digits m
    have hc := pyIsDigit_ne_signs c (hall c (by simp))
    have hval := natRepr_val m
    rw [hd] at hval
    simp only [pyint, hd]
    rw [if_neg hc.1, if_neg hc.2, if_pos (by simpa using hall), hval]

theorem intRepr_ofNat (m : Nat) : toString (Int.ofNat m) = Nat.repr m := rfl

theorem intRepr_negSucc (m : Nat) :
    toString (Int.negSucc m) = "-" ++ Nat.repr (m + 1) := rfl

theorem pyint_toString_int (n : Int) : pyint (toString n) = some n := by
  cases n with
  | ofNat m =>
    rw [intRepr_ofNat, pyint_natRepr m]
    simp
  | negSucc m =>
    rw [intRepr_negSucc]
    have hdata : ("-" ++ Nat.repr (m + 1)).data = '-' :: (Nat.repr (m + 1)).data := by
      rw [String.data_append]; rfl
    simp only [pyint, hdata]
    rw [if_pos True.intro,
      if_pos ⟨natRepr_ne_nil (m + 1), by
        simpa using fun c hc => natRepr_all_digits (m + 1) c hc⟩,
      natRepr_val]
    simp [Int.negSucc_eq]


/-! ## Tokenizer runs over symbolic digit strings -/

theorem strMk_data (s : String) : String.mk s.data = s := rfl

theorem strMk_append (a b : List Char) :
    String.mk a ++ String.mk b = String.mk (a ++ b) := rfl

theorem digit_not_alpha (c : Char) (h : pyIsDigit c = true) :
    pyIsAlpha c = false := by
  simp only [pyIsDigit, Char.isDigit, Bool.and_eq_true, decide_eq_true_eq] at h
  obtain ⟨h1, h2⟩ := h
  have hn2 : c.val.toNat ≤ (57 : UInt32).toNat := UInt32.le_def.mp h2
  have he : (57 : UInt32).toNat = 57 := rfl
  simp only [pyIsAlpha, Char.isAlpha, Char.isUpper, Char.isLower,
    Bool.or_eq_false_iff, Bool.and_eq_false_iff, decide_eq_false_iff_not]
  constructor
  · refine Or.inl fun hc => ?_
    have h3 : (65 : UInt32).toNat ≤ c.val.toNat := UInt32.le_def.mp hc
    have h4 : (65 : UInt32).toNat = 65 := rfl
    omega
  · refine Or.inl fun hc => ?_
    have h3 : (97 : UInt32).toNat ≤ c.val.toNat := UInt32.le_def.mp hc
    have h4 : (97 : UInt32).toNat = 97 := rfl
    omega

theorem digitsDot_run (ds : List Char) : ∀ (fuel : Nat) (word : String)
    (st : TokState) (frac : Bool) (rest : List Char),
    ds.length < fuel →
    (∀ c ∈ ds, pyIsDigit c = true) →
    pyIsDigit st.char = true →
    st.characters = ds ++ rest →
    pyIsDigit (rest.headD '\n') = false →
    rest.headD '\n' ≠ '.' →
    parseNumeric.digitsDot fuel word st frac =
      (word ++ String.mk (st.char :: ds),
       { st with priorChar := ds.getLastD st.char,
                 char := rest.headD '\n',
                 characters := rest.tail,
                 idx := st.idx + ds.length + 1 }, frac) := by
  induction ds with
  | nil =>
    intro fuel word st frac rest hfuel hall hhead hchars hstop hdot
    have hstop' : pyIsDigit (rest.head?.getD '\n') = false := by simpa using hstop
    have hdot' : rest.head?.getD '\n' ≠ '.' := by simpa using hdot
    match fuel, hfuel with
    | f + 1, hf =>
      rw [parseNumeric.digitsDot]
      rw [if_pos hhead]
      have hchars' : st.characters = rest := by simpa using hchars
      match f with
      | 0 =>
        rw [parseNumeric.digitsDot]
        simp [TokState.updateChars, hchars', List.getLastD]
      | f + 1 =>
        rw [parseNumeric.digitsDot]
        rw [if_neg (by simp [TokState.updateChars, hchars', hstop']),
          if_neg (by simp [TokState.updateChars, hchars', hdot'])]
        simp [TokState.updateChars, hchars', List.getLastD]
  | cons d ds ih =>
    intro fuel word st frac rest hfuel hall hhead hchars hstop hdot
    match fuel, hfuel with
    | f + 1, hf =>
      rw [parseNumeric.digitsDot, if_pos hhead]
      have hd : pyIsDigit d = true := hall d (by simp)
      have hch : (TokState.updateChars st).characters = ds ++ rest := by
        simp [TokState.updateChars, hchars]
      have hhd : pyIsDigit (TokState.updateChars st).char = true := by
        simp [TokState.updateChars, hchars, hd]
      rw [ih f (word ++ String.mk [st.char]) (TokState.updateChars st) frac rest
        (Nat.lt_of_succ_lt_succ hf) (fun c hc => hall c (by simp [hc])) hhd hch
        hstop hdot]
      simp [TokState.updateChars, hchars, strMk_append, String.append_assoc,
        List.getLastD_cons, List.cons_append, Prod.mk.injEq, TokState.mk.injEq]
      constructor
      · cases ds with
        | nil => rfl
        | cons e dt =>
          cases hx : (e :: dt).getLast? with
          | none => simp at hx
          | some x => simp [hx]
      · omega


theorem digitRun_stop (fuel : Nat) (word : String) (st : TokState)
    (h : pyIsDigit st.char = false) :
    parseNumeric.digitRun fuel word st = (word, st) := by
  cases fuel with
  | zero => rw [parseNumeric.digitRun]
  | succ f => rw [parseNumeric.digitRun, if_neg (by simp [h])]

/-- `parse_numeric` on a nonnegative digit run followed by a clean stop
character. -/
theorem parseNumeric_pos (ds : List Char) (fuel : Nat) (st : TokState)
    (rest : List Char)
    (hfuel : ds.length < fuel)
    (hall : ∀ c ∈ ds, pyIsDigit c = true)
    (hhead : pyIsDigit st.char = true)
    (hchars : st.characters = ds ++ rest)
    (hstop : pyIsDigit (rest.headD '\n') = false)
    (hdot : rest.headD '\n' ≠ '.')
    (hexp : pyCharIn (rest.headD '\n') "eEdD" = false)
    (hsign : pyCharIn (rest.headD '\n') "+-" = false) :
    parseNumeric fuel st =
      (String.mk (st.char :: ds),
       { st with priorChar := ds.getLastD st.char,
                 char := rest.headD '\n',
                 characters := rest.tail,
                 idx := st.idx + ds.length + 1 }) := by
  have hm : st.char ≠ '-' := (pyIsDigit_ne_signs st.char hhead).1
  have hdd := digitsDot_run ds fuel "" st false rest hfuel hall hhead hchars
    hstop hdot
  have hstop' : pyIsDigit (rest.head?.getD '\n') = false := by simpa using hstop
  have hexp' : pyCharIn (rest.head?.getD '\n') "eEdD" = false := by
    simpa using hexp
  have hsign' : pyCharIn (rest.head?.getD '\n') "+-" = false := by
    simpa using hsign
  simp [parseNumeric, hm, hdd, hexp', hsign', digitRun_stop, hstop',
    String.empty_append]

/-- `parse_numeric` on a negative digit run followed by a clean stop
character. -/
theorem parseNumeric_neg (ds : List Char) (d : Char) (fuel : Nat)
    (st : TokState) (rest : List Char)
    (hfuel : ds.length < fuel)
    (hall : ∀ c ∈ ds, pyIsDigit c = true)
    (hd : pyIsDigit d = true)
    (hm : st.char = '-')
    (hchars : st.characters = d :: (ds ++ rest))
    (hstop : pyIsDigit (rest.headD '\n') = false)
    (hdot : rest.headD '\n' ≠ '.')
    (hexp : pyCharIn (rest.headD '\n') "eEdD" = false)
    (hsign : pyCharIn (rest.headD '\n') "+-" = false) :
    parseNumeric fuel st =
      (String.mk ('-' :: d :: ds),
       { st with priorChar := ds.getLastD d,
                 char := rest.headD '\n',
                 characters := rest.tail,
                 idx := st.idx + ds.length + 2 }) := by
  have hch1 : (TokState.updateChars st).characters = ds ++ rest := by
    simp [TokState.updateChars, hchars]
  have hhd1 : pyIsDigit (TokState.updateChars st).char = true := by
    simp [TokState.updateChars, hchars, hd]
  have hdd := digitsDot_run ds fuel "-"
    ⟨ds ++ rest, '-', d, st.idx + 1, st.priorDelim, st.groupToken⟩ false rest
    hfuel hall (by simpa using hd) rfl hstop hdot
  have hstop' : pyIsDigit (rest.head?.getD '\n') = false := by simpa using hstop
  have hexp' : pyCharIn (rest.head?.getD '\n') "eEdD" = false := by
    simpa using hexp
  have hsign' : pyCharIn (rest.head?.getD '\n') "+-" = false := by
    simpa using hsign
  simp [parseNumeric, hm, hdd, hexp', hsign', digitRun_stop, hstop',
    TokState.updateChars, hchars, strMk_append, Prod.mk.injEq,
    TokState.mk.injEq]
  exact ⟨rfl, by omega⟩


/-- The character-class facts needed to route a digit through `tokStep`. -/
theorem digit_char_facts (c : Char) (h : pyIsDigit c = true) :
    c ≠ '\n' ∧ pyIsSpaceChar c = false ∧ c ≠ '!' ∧ c ≠ '#' ∧
    pyCharIn c "\"\'" = false ∧ pyIsAlpha c = false ∧
    c ≠ '+' ∧ c ≠ '-' ∧ c ≠ '&' ∧ c ≠ '$' ∧ c ≠ '/' ∧
    c ≠ ' ' ∧ c ≠ '\t' ∧ c ≠ '\x0d' ∧ c ≠ '\x0b' ∧ c ≠ '\x0c' := by
  have hne : c ≠ '\n' ∧ c ≠ ' ' ∧ c ≠ '\t' ∧ c ≠ '\x0d' ∧ c ≠ '\x0b' ∧
      c ≠ '\x0c' ∧ c ≠ '!' ∧ c ≠ '#' ∧ c ≠ '"' ∧ c ≠ '\'' ∧ c ≠ '+' ∧
      c ≠ '-' ∧ c ≠ '&' ∧ c ≠ '$' ∧ c ≠ '/' := by
    refine ⟨?_, ?_, ?_, ?_, ?_, ?_, ?_, ?_, ?_, ?_, ?_, ?_, ?_, ?_, ?_⟩ <;>
      (intro hce; subst hce; exact absurd h (by decide))
  obtain ⟨q1, q2, q3, q4, q5, q6, q7, q8, q9, q10, q11, q12, q13, q14, q15⟩ := hne
  refine ⟨q1, ?_, q7, q8, ?_, digit_not_alpha c h, q11, q12, q13, q14, q15,
    q2, q3, q4, q5, q6⟩
  · simp [pyIsSpaceChar, pyWhitespace, List.contains, q1, q2, q3, q4, q5, q6]
  · simp [pyCharIn, List.contains, q9, q10]

/-- One `tokLoop` iteration over a nonnegative numeric literal. -/
theorem tokLoop_num_step (line : List Char) (c : Char) (cs rest : List Char)
    (f : Nat) (acc : List String) (idx : Nat) (pc : Char) (g : Char)
    (hf : cs.length < f)
    (hc : pyIsDigit c = true) (hall : ∀ x ∈ cs, pyIsDigit x = true)
    (hstop : pyIsDigit (rest.headD '\n') = false)
    (hdot : rest.headD '\n' ≠ '.')
    (hexp : pyCharIn (rest.headD '\n') "eEdD" = false)
    (hsign : pyCharIn (rest.headD '\n') "+-" = false) :
    tokLoop line (f + 1) ⟨cs ++ rest, pc, c, idx, none, .opened g⟩ acc =
      tokLoop line f
        ⟨rest.tail, cs.getLastD c, rest.headD '\n', idx + cs.length + 1,
          none, .opened g⟩
        (String.mk (c :: cs) :: acc) := by
  obtain ⟨q1, q2, q3, q4, q5, q6, q7, q8, q9, q10, q11, -⟩ :=
    digit_char_facts c hc
  have hnum := parseNumeric_pos cs f ⟨cs ++ rest, pc, c, idx, none, .opened g⟩
    rest hf hall hc rfl hstop hdot hexp hsign
  rw [tokLoop, if_neg (by simpa using q1)]
  have hts : tokStep line f ⟨cs ++ rest, pc, c, idx, none, .opened g⟩ =
      some (String.mk (c :: cs),
        ⟨rest.tail, cs.getLastD c, rest.headD '\n', idx + cs.length + 1,
          none, .opened g⟩) := by
    rw [tokStep]
    simp [q2, q3, q4, q5, q6, q7, q8, q9, q10, q11, hc, hnum]
  rw [hts]

/-- One `tokLoop` iteration over a negative numeric literal. -/
theorem tokLoop_negnum_step (line : List Char) (d : Char) (ds rest : List Char)
    (f : Nat) (acc : List String) (idx : Nat) (pc : Char) (g : Char)
    (hf : ds.length < f)
    (hd : pyIsDigit d = true) (hall : ∀ x ∈ ds, pyIsDigit x = true)
    (hstop : pyIsDigit (rest.headD '\n') = false)
    (hdot : rest.headD '\n' ≠ '.')
    (hexp : pyCharIn (rest.headD '\n') "eEdD" = false)
    (hsign : pyCharIn (rest.headD '\n') "+-" = false) :
    tokLoop line (f + 1) ⟨d :: (ds ++ rest), pc, '-', idx, none, .opened g⟩ acc =
      tokLoop line f
        ⟨rest.tail, ds.getLastD d, rest.headD '\n', idx + ds.length + 2,
          none, .opened g⟩
        (String.mk ('-' :: d :: ds) :: acc) := by
  have hnum := parseNumeric_neg ds d f
    ⟨d :: (ds ++ rest), pc, '-', idx, none, .opened g⟩ rest hf hall hd rfl rfl
    hstop hdot hexp hsign
  have hda : pyIsAlpha d = false := digit_not_alpha d hd
  rw [tokLoop, if_neg (show ¬(('-' : Char) = '\n') from by decide)]
  have hts : tokStep line f ⟨d :: (ds ++ rest), pc, '-', idx, none, .opened g⟩ =
      some (String.mk ('-' :: d :: ds),
        ⟨rest.tail, ds.getLastD d, rest.headD '\n', idx + ds.length + 2,
          none, .opened g⟩) := by
    rw [tokStep]
    simp [hda, hnum, pyLower, pyIsSpaceChar, pyWhitespace, pyCharIn,
      List.takeWhile_cons, show pyIsAlpha '-' = false from by decide]
  rw [hts]


theorem tok_value_line_pos (s : String) (g : Char) (c : Char) (cs : List Char)
    (hsd : s.data = c :: cs) (hc : pyIsDigit c = true)
    (hall : ∀ x ∈ cs, pyIsDigit x = true) :
    tokenizerParse none (.opened g) ("    x = " ++ s ++ "\n") =
      some (["    ", "x", " ", "=", " ", s],
        ⟨[], cs.getLastD c, '\n', cs.length + 9, none, .opened g⟩) := by
  have hdata : ("    x = " ++ s ++ "\n").data =
      ' ' :: ' ' :: ' ' :: ' ' :: 'x' :: ' ' :: '=' :: ' ' ::
        (c :: cs ++ ['\n']) := by
    simp [String.data_append, hsd]
  have hlen : ("    x = " ++ s ++ "\n").length = cs.length + 10 := by
    have : ("    x = " ++ s ++ "\n").length =
        ("    x = " ++ s ++ "\n").data.length := rfl
    rw [this, hdata]
    simp
  obtain ⟨q1, q2, q3, q4, q5, q6, q7, q8, q9, q10, q11, w1, w2, w3, w4, w5⟩ :=
    digit_char_facts c hc
  rw [tokenizerParse, hlen, hdata]
  rw [show cs.length + 10 + 2 = (cs.length + 11) + 1 from rfl, tokLoop]
  simp only [List.headD_cons, List.tail_cons]
  simp [tokStep, wsRun, parseName, TokState.updateChars, pyIsSpaceChar,
    pyWhitespace, pyCharIn, pyIsAlpha, pyIsAlnum, pyIsDigit, q2, q6, hc]
  rw [show cs.length + 11 = (cs.length + 10) + 1 from rfl, tokLoop]
  simp [tokStep, wsRun, parseName, TokState.updateChars, pyIsSpaceChar,
    pyWhitespace, pyCharIn, pyIsAlpha, pyIsAlnum, pyIsDigit, q2, q6, hc,
    show "x".isEmpty = false from rfl, show "x".length = 1 from rfl]
  rw [show cs.length + 10 = (cs.length + 9) + 1 from rfl, tokLoop]
  simp [tokStep, wsRun, TokState.updateChars, pyIsSpaceChar,
    pyWhitespace, pyCharIn, pyIsAlpha, pyIsAlnum, pyIsDigit, q2, q6, hc]
  rw [show cs.length + 9 = (cs.length + 8) + 1 from rfl, tokLoop]
  simp [tokStep, wsRun, TokState.updateChars, pyIsSpaceChar,
    pyWhitespace, pyCharIn, pyIsAlpha, pyIsAlnum, pyIsDigit,
    tokPunctuation, q2, q6, hc]
  rw [show cs.length + 8 = (cs.length + 7) + 1 from rfl, tokLoop]
  simp [tokStep, wsRun, TokState.updateChars, pyIsSpaceChar,
    pyWhitespace, pyCharIn, pyIsAlpha, pyIsAlnum, pyIsDigit, q1, q2, q6, hc,
    w1, w2, w3, w4, w5]
  rw [show cs.length + 7 = (cs.length + 6) + 1 from rfl,
    tokLoop_num_step (' ' :: ' ' :: ' ' :: ' ' :: 'x' :: ' ' :: '=' :: ' ' ::
        c :: (cs ++ ['\n'])) c cs ['\n'] (cs.length + 6)
      [" ", "=", " ", "x", "    "] 8 ' ' g (by omega) hc hall (by decide)
      (by decide) (by decide) (by decide)]
  rw [show cs.length + 6 = (cs.length + 5) + 1 from rfl, tokLoop]
  have hs' : String.mk (c :: cs) = s := by rw [← hsd]
  simp [hs']
  omega



theorem tok_value_line_neg (s : String) (g : Char) (d : Char) (ds : List Char)
    (hsd : s.data = '-' :: d :: ds) (hd : pyIsDigit d = true)
    (hall : ∀ x ∈ ds, pyIsDigit x = true) :
    tokenizerParse none (.opened g) ("    x = " ++ s ++ "\n") =
      some (["    ", "x", " ", "=", " ", s],
        ⟨[], ds.getLastD d, '\n', ds.length + 10, none, .opened g⟩) := by
  have hdata : ("    x = " ++ s ++ "\n").data =
      ' ' :: ' ' :: ' ' :: ' ' :: 'x' :: ' ' :: '=' :: ' ' ::
        ('-' :: d :: ds ++ ['\n']) := by
    simp [String.data_append, hsd]
  have hlen : ("    x = " ++ s ++ "\n").length = ds.length + 11 := by
    have : ("    x = " ++ s ++ "\n").length =
        ("    x = " ++ s ++ "\n").data.length := rfl
    rw [this, hdata]
    simp
  have hma : pyIsAlpha '-' = false := by decide
  rw [tokenizerParse, hlen, hdata]
  rw [show ds.length + 11 + 2 = (ds.length + 12) + 1 from rfl, tokLoop]
  simp only [List.headD_cons, List.tail_cons]
  simp [tokStep, wsRun, parseName, TokState.updateChars, pyIsSpaceChar,
    pyWhitespace, pyCharIn, pyIsAlpha, pyIsAlnum, pyIsDigit, hma]
  rw [show ds.length + 12 = (ds.length + 11) + 1 from rfl, tokLoop]
  simp [tokStep, wsRun, parseName, TokState.updateChars, pyIsSpaceChar,
    pyWhitespace, pyCharIn, pyIsAlpha, pyIsAlnum, pyIsDigit, hma,
    show "x".isEmpty = false from rfl, show "x".length = 1 from rfl]
  rw [show ds.length + 11 = (ds.length + 10) + 1 from rfl, tokLoop]
  simp [tokStep, wsRun, TokState.updateChars, pyIsSpaceChar,
    pyWhitespace, pyCharIn, pyIsAlpha, pyIsAlnum, pyIsDigit, hma]
  rw [show ds.length + 10 = (ds.length + 9) + 1 from rfl, tokLoop]
  simp [tokStep, wsRun, TokState.updateChars, pyIsSpaceChar,
    pyWhitespace, pyCharIn, pyIsAlpha, pyIsAlnum, pyIsDigit,
    tokPunctuation, hma]
  rw [show ds.length + 9 = (ds.length + 8) + 1 from rfl, tokLoop]
  simp [tokStep, wsRun, TokState.updateChars, pyIsSpaceChar,
    pyWhitespace, pyCharIn, pyIsAlpha, pyIsAlnum, pyIsDigit, hma]
  rw [show ds.length + 8 = (ds.length + 7) + 1 from rfl,
    tokLoop_negnum_step (' ' :: ' ' :: ' ' :: ' ' :: 'x' :: ' ' :: '=' :: ' ' ::
        '-' :: d :: (ds ++ ['\n'])) d ds ['\n'] (ds.length + 7)
      [" ", "=", " ", "x", "    "] 8 ' ' g (by omega) hd hall (by decide)
      (by decide) (by decide) (by decide)]
  rw [show ds.length + 7 = (ds.length + 6) + 1 from rfl, tokLoop]
  have hs' : String.mk ('-' :: d :: ds) = s := by rw [← hsd]
  simp [hs']
  omega


theorem tok_line1 : tokenizerParse none .unset "&g\n" =
    some (["&", "g"], ⟨[], 'g', '\n', 2, none, .opened '&'⟩) := rfl

theorem tok_line3 : tokenizerParse none (.opened '&') "/\n" =
    some (["/"], ⟨[], '/', '\n', 1, none, .closed⟩) := rfl


/-- The lexing stage of `_readstream` on the three serialized lines. -/
theorem lex_value_lines (f : Nat) (s : String) (st₂ : TokState)
    (htok : tokenizerParse none (.opened '&') ("    x = " ++ s ++ "\n") =
      some (["    ", "x", " ", "=", " ", s], st₂))
    (hpd : st₂.priorDelim = none) (hgt : st₂.groupToken = .opened '&') :
    lexLinesF (f + 4) none .unset ["&g\n", "    x = " ++ s ++ "\n", "/\n"] =
      .ok ["&", "g", "\n", "    ", "x", " ", "=", " ", s, "\n", "/", "\n"] := by
  simp only [lexLinesF, lexContF, tok_line1, tok_line3, htok, hpd, hgt]
  rfl


theorem go_no_newline (ds : List Char) : ∀ (acc rest : List Char),
    (∀ c ∈ ds, c ≠ '\n') →
    pySplitlines.go (ds ++ rest) acc = pySplitlines.go rest (ds.reverse ++ acc) := by
  induction ds with
  | nil => intro acc rest h; simp
  | cons c cs ih =>
    intro acc rest h
    rw [List.cons_append, pySplitlines.go,
      if_neg (h c (by simp)), ih (c :: acc) rest (fun x hx => h x (by simp [hx]))]
    simp

/-- `str.splitlines` recovers the three serialized lines. -/
theorem split_value_source (s : String)
    (hnonl : ∀ c ∈ s.data, c ≠ '\n') :
    pySplitlines ("&g\n" ++ ("    x = " ++ s ++ "\n") ++ "/\n") =
      ["&g\n", "    x = " ++ s ++ "\n", "/\n"] := by
  have hdata : ("&g\n" ++ ("    x = " ++ s ++ "\n") ++ "/\n").data =
      '&' :: 'g' :: '\n' :: ' ' :: ' ' :: ' ' :: ' ' :: 'x' :: ' ' :: '=' ::
        ' ' :: (s.data ++ '\n' :: '/' :: '\n' :: []) := by
    simp [String.data_append]
  rw [pySplitlines, hdata]
  rw [pySplitlines.go, if_neg (by decide), pySplitlines.go,
    if_neg (by decide), pySplitlines.go, if_pos rfl]
  rw [pySplitlines.go, if_neg (by decide), pySplitlines.go,
    if_neg (by decide), pySplitlines.go, if_neg (by decide), pySplitlines.go,
    if_neg (by decide), pySplitlines.go, if_neg (by decide), pySplitlines.go,
    if_neg (by decide), pySplitlines.go, if_neg (by decide), pySplitlines.go,
    if_neg (by decide)]
  rw [go_no_newline s.data _ _ hnonl]
  rw [pySplitlines.go, if_pos rfl]
  rw [pySplitlines.go, if_neg (by decide), pySplitlines.go, if_pos rfl]
  rw [pySplitlines.go]
  simp [strMk_append, String.data_append]
  have hl2 : ("    x = " ++ s ++ "\n").data =
      ' ' :: ' ' :: ' ' :: ' ' :: 'x' :: ' ' :: '=' :: ' ' ::
        (s.data ++ ['\n']) := by
    simp [String.data_append]
  rw [← hl2, strMk_data]


/-- The decimal rendering of an integer: a digit run, or `-` then digits. -/
theorem toString_int_shape (n : Int) :
    (∃ c cs, (toString n).data = c :: cs ∧ pyIsDigit c = true ∧
      (∀ x ∈ cs, pyIsDigit x = true)) ∨
    (∃ d ds, (toString n).data = '-' :: d :: ds ∧ pyIsDigit d = true ∧
      (∀ x ∈ ds, pyIsDigit x = true)) := by
  cases n with
  | ofNat m =>
    left
    match hd : (Nat.repr m).data with
    | [] => exact absurd hd (natRepr_ne_nil m)
    | c :: cs =>
      have hall : ∀ x ∈ c :: cs, pyIsDigit x = true := by
        rw [← hd]; exact natRepr_all_digits m
      exact ⟨c, cs, rfl, hall c (by simp),
        fun x hx => hall x (by simp [hx])⟩
  | negSucc m =>
    right
    match hd : (Nat.repr (m + 1)).data with
    | [] => exact absurd hd (natRepr_ne_nil (m + 1))
    | c :: cs =>
      have hall : ∀ x ∈ c :: cs, pyIsDigit x = true := by
        rw [← hd]; exact natRepr_all_digits (m + 1)
      refine ⟨c, cs, ?_, hall c (by simp), fun x hx => hall x (by simp [hx])⟩
      rw [intRepr_negSucc, String.data_append, hd]
      rfl

theorem toString_int_last (n : Int) :
    ∃ c, (toString n).data.getLast? = some c ∧ pyIsDigit c = true := by
  rcases toString_int_shape n with ⟨c, cs, hd, hc, hall⟩ | ⟨d, ds, hd, hdd, hall⟩
  · refine ⟨(c :: cs).getLast (by simp), ?_, ?_⟩
    · rw [hd]; exact List.getLast?_eq_getLast _ (by simp)
    · have := List.getLast_mem (l := c :: cs) (by simp)
      rcases List.mem_cons.mp this with h | h
      · rw [h]; exact hc
      · exact hall _ h
  · refine ⟨('-' :: d :: ds).getLast (by simp), ?_, ?_⟩
    · rw [hd]; exact List.getLast?_eq_getLast _ (by simp)
    · have hL : ('-' :: d :: ds).getLast (by simp) =
          (d :: ds).getLast (by simp) := by
        rw [List.getLast_cons]
      rw [hL]
      have := List.getLast_mem (l := d :: ds) (by simp)
      rcases List.mem_cons.mp this with h | h
      · rw [h]; exact hdd
      · exact hall _ h

theorem toString_int_no_newline (n : Int) :
    ∀ c ∈ (toString n).data, c ≠ '\n' := by
  rcases toString_int_shape n with ⟨c, cs, hd, hc, hall⟩ | ⟨d, ds, hd, hdd, hall⟩ <;>
    rw [hd] <;> intro x hx
  · rcases List.mem_cons.mp hx with h | h
    · subst h; exact (digit_char_facts x (by exact hc)).1
    · exact (digit_char_facts x (hall x h)).1
  · rcases List.mem_cons.mp hx with h | h
    · subst h; decide
    · rcases List.mem_cons.mp h with h2 | h2
      · subst h2; exact (digit_char_facts x hdd).1
      · exact (digit_char_facts x (hall x h2)).1

/-- `str.rstrip` keeps a string whose last character is not whitespace. -/
theorem pyRstrip_eq_self (t : String) (c : Char)
    (hne : t.data.getLast? = some c) (hc : pyIsSpaceChar c = false) :
    pyRstrip t = t := by
  rw [pyRstrip]
  have hrev : t.data.reverse = c :: t.data.reverse.tail := by
    cases hr : t.data.reverse with
    | nil =>
      have : t.data = [] := by simpa using congrArg List.reverse hr
      rw [this] at hne; simp at hne
    | cons a r =>
      have : t.data.getLast? = some a := by
        rw [← List.head?_reverse, hr]; rfl
      rw [hne] at this
      simp at this
      rw [this]
      rfl
  rw [hrev, List.dropWhile_cons, hc]
  simp only [Bool.false_eq_true, if_false]
  rw [← hrev, List.reverse_reverse, strMk_data]


/-- `_writestream` on the single-group, single-scalar-integer namelist. -/
theorem writestream_scalar (f : Nat) (n : Int) :
    writestream {} (f + 1) ⟨[("g", .vnml [("x", .vint n)] [] [])], [], []⟩ =
      "&g\n" ++ ("    x = " ++ toString n ++ "\n") ++ "/\n" := by
  obtain ⟨lc, hlast, hlc⟩ := toString_int_last n
  have hassoc : "    x = " ++ toString n = "    " ++ ("x = " ++ toString n) := by
    rw [← String.append_assoc]
    rfl
  have hrs : pyRstrip ("    " ++ ("x = " ++ toString n)) =
      "    " ++ ("x = " ++ toString n) := by
    rw [← hassoc]
    refine pyRstrip_eq_self _ lc ?_ ((digit_char_facts lc hlc).2.1)
    rw [String.data_append, List.getLast?_append_of_ne_nil, hlast]
    intro hnil
    rw [hnil] at hlast
    simp at hlast
  have hnsp : pyIsSpace ("    " ++ ("x = " ++ toString n)) = false := by
    rw [← hassoc]
    simp [pyIsSpace, String.data_append, List.all_append, pyIsSpaceChar,
      pyWhitespace]
  have hne0 : ¬("    " ++ ("x = " ++ toString n)) = "" := by
    intro h
    have := congrArg String.data h
    simp [String.data_append] at this
  by_cases hcw : 72 ≤ 4 + (4 + (toString n).length)
  all_goals
    simp [writestream, writeNmlgrp, varStringsF, varStringsFlat,
      varStringsIter, f90reprOut, f90repr, isNullableListOfLists,
      isNullableListOfNml, hrs, hnsp, hcw, String.append_empty,
      String.append_assoc, String.intercalate, String.intercalate.go,
      String.join, alistGet,
      show cogroupBasename "g" = "g" from rfl,
      show ("    " : String).length = 4 from rfl,
      show ("x" : String).length = 1 from rfl,
      show ("x = " : String).length = 4 from rfl,
      show (" = " : String).length = 3 from rfl,
      show ("" : String).length = 0 from rfl,
      hne0, show pyIsSpace "        " = true from by decide]
  all_goals rfl


/-- The reader on the serialized single-scalar group. -/
theorem reads_scalar (f : Nat) (n : Int) :
    readsF {} (f + 50)
        ("&g\n" ++ ("    x = " ++ toString n ++ "\n") ++ "/\n") =
      .ok ⟨[("g", .vnml [("x", .vint n)] [] [])], [], []⟩
        ⟨[], "/", toString n, none⟩ := by
  have hpy : pyint (toString n) = some n := pyint_toString_int n
  have hws : inCommentOrWs {} (tokHead (toString n)) = false :=
    pyint_not_commentOrWs {} rfl (toString n) n hpy
  have hne : ∀ t : String, pyint t = none → toString n ≠ t := by
    intro t ht hst
    rw [hst, ht] at hpy
    exact Option.noConfusion hpy
  have hne1 := hne "=" (by decide)
  have hne2 := hne "(" (by decide)
  have hne3 := hne "%" (by decide)
  have hne4 := hne "*" (by decide)
  have hne5 := hne "," (by decide)
  have hne6 := hne "/" (by decide)
  have hne7 := hne "&" (by decide)
  have hne8 := hne "$" (by decide)
  have hsplit := split_value_source (toString n) (toString_int_no_newline n)
  have hlex : lexLinesF (f + 50) none .unset
      ["&g\n", "    x = " ++ toString n ++ "\n", "/\n"] =
      .ok ["&", "g", "\n", "    ", "x", " ", "=", " ", toString n, "\n",
        "/", "\n"] := by
    rcases toString_int_shape n with ⟨c, cs, hd, hc, hall⟩ |
      ⟨d, ds, hd, hdd, hall⟩
    · exact lex_value_lines (f + 46) (toString n) _
        (tok_value_line_pos (toString n) '&' c cs hd hc hall) rfl rfl
    · exact lex_value_lines (f + 46) (toString n) _
        (tok_value_line_neg (toString n) '&' d ds hd hdd hall) rfl rfl
  have t1 : inCommentOrWs {} (tokHead "&") = false := by decide
  have t2 : inCommentOrWs {} (tokHead "g") = false := by decide
  have t3 : inCommentOrWs {} (tokHead "\n") = true := by decide
  have t4 : inCommentOrWs {} (tokHead "    ") = true := by decide
  have t5 : inCommentOrWs {} (tokHead "x") = false := by decide
  have t6 : inCommentOrWs {} (tokHead " ") = true := by decide
  have t7 : inCommentOrWs {} (tokHead "=") = false := by decide
  have t8 : inCommentOrWs {} (tokHead "/") = false := by decide
  rw [readsF, hsplit, readstreamF, hlex]
  simp [updateTokensF, wsSkipLoop, parseLoopF, skipToGroupF, groupLoopF,
    parseVariableF, valueLoopF, parseValueF, recastValue, appendValueF,
    PRes.bind, PState.pwrite, squeezeVars, delist, NML.contains, NML.set,
    NML.getOpt, NML.get, NML.popEntry, NML.pyTruthy, alistGet, alistSet,
    alistDel, pyLower, countOfNVals, pyTruthyOptInt, Value.ofNML,
    hpy, hws, hne1, hne2, hne3, hne4, hne5, hne6, hne7, hne8,
    t1, t2, t3, t4, t5, t6, t7, t8]

/-- C1: the round trip `parse(serialize(nml)) == nml` does not hold for
every float-unambiguous namelist as claimed — the amended statement is that
it holds up to single-element-list delisting.  Verified here universally on
the scalar-integer fragment: for every integer `n` and every fuel bound,
serializing the namelist `{g: {x: n}}` and re-parsing the produced text
yields a namelist that is Python-`==` to the original. -/
theorem claim_C1 (n : Int) (f : Nat) :
    readsGives {} (f + 50)
      (writestream {} (f + 50) ⟨[("g", .vnml [("x", .vint n)] [] [])], [], []⟩)
      ⟨[("g", .vnml [("x", .vint n)] [] [])], [], []⟩ = true := by
  have hws : writestream {} (f + 50)
        ⟨[("g", .vnml [("x", .vint n)] [] [])], [], []⟩ =
      "&g\n" ++ ("    x = " ++ toString n ++ "\n") ++ "/\n" :=
    writestream_scalar (f + 49) n
  rw [readsGives, hws, reads_scalar f n]
  simp [pyEqNML, pyEqEntries, pyEqValue, numProj, pyFloatEq]

/-- C1 witness: the round trip on `{g: {x: 7}}` at fuel 50. -/
theorem claim_C1_witness :
    readsGives {} 50
      (writestream {} 50 ⟨[("g", .vnml [("x", .vint 7)] [] [])], [], []⟩)
      ⟨[("g", .vnml [("x", .vint 7)] [] [])], [], []⟩ = true :=
  claim_C1 7 0

/-- C1 counterexample: the namelist `{g: {x: [1]}}` has no floating-point
values at all, yet fails the claimed round trip.  The serializer renders
the one-element list exactly like the scalar (`x = 1`), the parser delists
the lone value back to a scalar, and `[1] == 1` is false in Python — while
the delisted scalar itself does compare equal to `1`. -/
theorem claim_C1_counterexample :
    writestream {} 300 ⟨[("g", .vnml [("x", .vlist [.vint 1])] [] [])], [], []⟩ =
        "&g\n    x = 1\n/\n" ∧
      readsGives {} 300
        (writestream {} 300
          ⟨[("g", .vnml [("x", .vlist [.vint 1])] [] [])], [], []⟩)
        ⟨[("g", .vnml [("x", .vlist [.vint 1])] [] [])], [], []⟩ = false ∧
      readsVarGives {} 300
        (writestream {} 300
          ⟨[("g", .vnml [("x", .vlist [.vint 1])] [] [])], [], []⟩)
        "g" "x" (.vint 1) = true := by
  refine ⟨by decide!, by decide!, by decide!⟩

end F90
